import Mathlib

/-!
Personnel CSV checker: scanner and schema validator.

A shallow embedding of `src/index.js` (`parseCSV`, its local `scanCharacter`, and
`validateData`) together with theorems about them.

JavaScript strings are sequences of UTF-16 code units; they are embedded as lists of
natural numbers.  `undefined` is embedded as `none`.
-/

namespace CsvCheck

/-! ## Strings -/

/-- A JavaScript string: its UTF-16 code units, in order. -/
abbrev Str := List Nat

/-- The code units of a string literal whose characters all lie in the Basic
Multilingual Plane (one code unit per character). -/
def lit (s : String) : Str := s.toList.map Char.toNat

/-- Number-to-string conversion of a non-negative integer, as done by a template
literal: its decimal digits. -/
def decimal (n : Nat) : Str := (Nat.toDigits 10 n).map Char.toNat

/-- First half of a surrogate pair. -/
def isHighSurrogate (u : Nat) : Bool := decide (0xD800 ≤ u) && decide (u ≤ 0xDBFF)

/-- Second half of a surrogate pair. -/
def isLowSurrogate (u : Nat) : Bool := decide (0xDC00 ≤ u) && decide (u ≤ 0xDFFF)

/-- The values produced by `for (const character of csvData)`: the string iterator
yields one string per code point, so a high surrogate immediately followed by a low
surrogate comes out as a single two-unit string and every other code unit as a
one-unit string. -/
def forOf : Str → List Str
  | [] => []
  | [u] => [[u]]
  | u :: v :: rest =>
    if isHighSurrogate u && isLowSurrogate v then [u, v] :: forOf rest
    else [u] :: forOf (v :: rest)

/-- The characters matched by `\s` in a regular expression and removed by
`String.prototype.trim`: ECMAScript WhiteSpace and LineTerminator. -/
def isWhiteSpace (u : Nat) : Bool :=
  u == 9 || u == 10 || u == 11 || u == 12 || u == 13 || u == 32 || u == 160 ||
  u == 0x1680 || (decide (0x2000 ≤ u) && decide (u ≤ 0x200A)) || u == 0x2028 ||
  u == 0x2029 || u == 0x202F || u == 0x205F || u == 0x3000 || u == 0xFEFF

/-- The method `String.prototype.trim`. -/
def trim (s : Str) : Str :=
  ((s.dropWhile isWhiteSpace).reverse.dropWhile isWhiteSpace).reverse

/-- The call `.replace(/\r\n/g, "\n")` of line 110: every CR immediately followed by LF
is replaced by LF, scanning left to right without rescanning the replacement. -/
def replaceCRLF : Str → Str
  | [] => []
  | [u] => [u]
  | u :: v :: rest =>
    if u = 13 ∧ v = 10 then 10 :: replaceCRLF rest
    else u :: replaceCRLF (v :: rest)

/-! ## Grammar scanner (`parseCSV`, lines 106-179) -/

/-- The grammar configuration (`options`): the three grammar symbols and the
`hasHeaders` flag. -/
structure Config where
  delimiter : Str
  hasHeaders : Bool
  separator : Str
  terminator : Str
deriving DecidableEq, Repr

/-- The state names returned by `scanCharacter`.  The variable `currentState` starts
as `undefined`, embedded as `none : Option State`. -/
inductive State where
  | startDelimiter
  | insideDelimiter
  | endDelimiter
  | atSeparator
  | atTerminator
  | error
deriving DecidableEq, Repr

/-- The lookahead `csvData[currentPosition + 1]` as a string value: a one-unit string,
or `undefined`. -/
def unitStr (lookAhead : Option Nat) : Option Str := lookAhead.map fun u => [u]

/-- The transition function `scanCharacter` (lines 112-139).  `char` is a value yielded
by the string iterator; `lookAhead` is a single code unit of `csvData` or `undefined`
(a one-unit string is truthy, `undefined` is falsy).  The `switch` compares `char`
with the three symbols in the order delimiter, separator, terminator. -/
def scanCharacter (char : Str) (lookAhead : Option Nat) (config : Config)
    (currentState : Option State) : State :=
  if currentState = some State.insideDelimiter ∧ char ≠ config.delimiter then
    State.insideDelimiter
  else if char = config.delimiter then
    if currentState = some State.insideDelimiter then State.endDelimiter
    else State.startDelimiter
  else if char = config.separator then
    if unitStr lookAhead ≠ some config.delimiter ∧
        unitStr lookAhead ≠ some config.terminator then State.error
    else State.atSeparator
  else if char = config.terminator then
    if lookAhead.isSome = true ∧ unitStr lookAhead ≠ some config.delimiter then State.error
    else State.atTerminator
  else
    if currentState = some State.startDelimiter ∨
        currentState = some State.insideDelimiter then State.insideDelimiter
    else State.error

/-- The result object of `parseCSV`: `{ isValid: false, error }` or
`{ isValid: true, data }`. -/
inductive ParseResult where
  | invalid (error : Str)
  | valid (data : List (List Str))
deriving DecidableEq, Repr

/-- The mutable variables of the scan loop (lines 111 and 140-143). -/
structure ScanVars where
  currentState : Option State
  data : List (List Str)
  currentDataArray : List Str
  currentPosition : Nat
  currentWord : Str
deriving DecidableEq, Repr

/-- The values of the variables before the loop. -/
def initialVars : ScanVars := ⟨none, [], [], 0, []⟩

/-- The message of the structural error (line 167). -/
def positionError (currentPosition : Nat) : Str :=
  lit "Character at position " ++ decimal currentPosition ++ lit " is invalid."

/-- Lines 145-147: the lookahead read by string index. -/
def lookAheadAt (csvData : Str) (currentPosition : Nat) : Option Nat :=
  if currentPosition < csvData.length then csvData[currentPosition + 1]? else none

/-- Lines 150-170: the accumulation driven by the new state.  `Except.error` is the
early `return` of line 165. -/
def accumulate (v : ScanVars) (character : Str) (currentState : State) :
    Except Str ScanVars :=
  let currentWord := if currentState = State.startDelimiter then [] else v.currentWord
  let currentWord :=
    if currentState = State.insideDelimiter then currentWord ++ character else currentWord
  let currentDataArray :=
    if currentState = State.endDelimiter then v.currentDataArray ++ [currentWord]
    else v.currentDataArray
  let currentWord := if currentState = State.endDelimiter then [] else currentWord
  let data := if currentState = State.atTerminator then v.data ++ [currentDataArray] else v.data
  let currentDataArray := if currentState = State.atTerminator then [] else currentDataArray
  if currentState = State.error then Except.error (positionError v.currentPosition)
  else Except.ok ⟨some currentState, data, currentDataArray, v.currentPosition + 1, currentWord⟩

/-- One iteration of the loop body (lines 145-170). -/
def loopBody (csvData : Str) (options : Config) (v : ScanVars) (character : Str) :
    Except Str ScanVars :=
  let lookAhead := lookAheadAt csvData v.currentPosition
  let currentState := scanCharacter character lookAhead options v.currentState
  accumulate v character currentState

/-- The loop of lines 144-171 over the characters still to be iterated. -/
def scanLoop (csvData : Str) (options : Config) : List Str → ScanVars → Except Str ScanVars
  | [], v => Except.ok v
  | character :: rest, v =>
    match loopBody csvData options v character with
    | Except.error e => Except.error e
    | Except.ok v2 => scanLoop csvData options rest v2

/-- Lines 172-178: the finalization after the loop.  The current word is pushed and
popped again before the current row is pushed. -/
def finalize (v : ScanVars) : ParseResult :=
  if v.currentDataArray.length > 0 ∨ trim v.currentWord ≠ [] then
    ParseResult.valid (v.data ++ [(v.currentDataArray ++ [v.currentWord]).dropLast])
  else ParseResult.valid v.data

/-- Lines 111-178 of `parseCSV`: the scan of the text `csvData`, the string the loop
iterates over. -/
def scan (csvData : Str) (options : Config) : ParseResult :=
  match scanLoop csvData options (forOf csvData) initialVars with
  | Except.error e => ParseResult.invalid e
  | Except.ok v => finalize v

/-- The function `parseCSV` on the content of the file at `filePath`: line endings are
normalized (line 110), then the text is scanned. -/
def parseCSV (fileContent : Str) (options : Config) : ParseResult :=
  scan (replaceCRLF fileContent) options

/-! ## Schema validator (`validateData`, lines 48-105) -/

/-- The two column types of the schema. -/
inductive ColumnType where
  | varchar
  | integer
deriving DecidableEq, Repr

/-- One entry of the constant `schema` (lines 49-54). -/
structure SchemaColumn where
  type : ColumnType
  fieldName : Str
deriving DecidableEq, Repr

/-- The constant `schema` (lines 49-54). -/
def schema : List SchemaColumn :=
  [⟨ColumnType.varchar, lit "name"⟩, ⟨ColumnType.integer, lit "age"⟩,
   ⟨ColumnType.varchar, lit "profession"⟩, ⟨ColumnType.varchar, lit "gender"⟩]

/-- The result object of `validateData`: `{ isValid: true }` or
`{ isValid: false, error }`. -/
inductive ValidationResult where
  | valid
  | invalid (error : Str)
deriving DecidableEq, Repr

/-- An ASCII letter, `[a-zA-Z]`. -/
def isAsciiLetter (u : Nat) : Bool :=
  (decide (97 ≤ u) && decide (u ≤ 122)) || (decide (65 ≤ u) && decide (u ≤ 90))

/-- An ASCII digit, the class `\d`. -/
def isAsciiDigit (u : Nat) : Bool := decide (48 ≤ u) && decide (u ≤ 57)

/-- The test `/^[a-zA-Z\s,]+$/.test(cell)` on a string (the expression has no flags, so
it works on code units and `$` is the end of the string). -/
def matchesLetters (cell : Str) : Bool :=
  !cell.isEmpty && cell.all fun u => isAsciiLetter u || isWhiteSpace u || u == 44

/-- The test `/^\d+$/.test(cell)` on a string. -/
def matchesDigits (cell : Str) : Bool := !cell.isEmpty && cell.all isAsciiDigit

/-- The call `parseInt(cell, 10)` on a string of ASCII digits (it is only reached after
`matchesDigits` succeeded): the decimal value.  The comparisons with 18 and 125 give
the same answers on the exact value as on its double-precision rounding. -/
def parseInt (cell : Str) : Nat := cell.foldl (fun acc u => 10 * acc + (u - 48)) 0

/-- The constant `allowedGenders` (line 84). -/
def allowedGenders : List Str := [lit "Male", lit "Female", lit "male", lit "female"]

/-- The common beginning of the cell diagnostics:
"Row R, Column C (fieldName): ". -/
def cellErrorHead (rowIndex colIndex : Nat) (fieldName : Str) : Str :=
  lit "Row " ++ decimal (rowIndex + 1) ++ lit ", Column " ++ decimal (colIndex + 1) ++
    lit " (" ++ fieldName ++ lit "): "

/-- The body of the inner loop (lines 74-101) for one column: `some error` is the early
`return`, `none` falls through to the next column.  `cell` is `row[colIndex]`, which is
`undefined` (`none`) when the row is too short; `typeof cell !== "string"` holds exactly
then, and `/^\d+$/` does not match the text "undefined". -/
def validateCell (rowIndex colIndex : Nat) (column : SchemaColumn) (cell : Option Str) :
    Option Str :=
  match column.type with
  | ColumnType.varchar =>
    match cell with
    | none => some (cellErrorHead rowIndex colIndex column.fieldName ++ lit "Expected letters only.")
    | some cell =>
      if matchesLetters cell = false then
        some (cellErrorHead rowIndex colIndex column.fieldName ++ lit "Expected letters only.")
      else if cell.length > 50 then
        some (cellErrorHead rowIndex colIndex column.fieldName ++
          lit "Exceeds 50 character limit.")
      else if column.fieldName = lit "gender" ∧ ¬ cell ∈ allowedGenders then
        some (cellErrorHead rowIndex colIndex (lit "gender") ++
          lit "Expected \"Male\" or \"Female\", but found \"" ++ cell ++ lit "\".")
      else none
  | ColumnType.integer =>
    match cell with
    | none => some (cellErrorHead rowIndex colIndex column.fieldName ++ lit "Expected an integer.")
    | some cell =>
      if matchesDigits cell = false then
        some (cellErrorHead rowIndex colIndex column.fieldName ++ lit "Expected an integer.")
      else if parseInt cell < 18 ∨ parseInt cell > 125 then
        some (cellErrorHead rowIndex colIndex (lit "age") ++
          lit "Age must be between 0 and 125.")
      else if cell.length > 3 then
        some (cellErrorHead rowIndex colIndex (lit "age") ++
          lit "Age must not exceed three digits.")
      else none

/-- The inner loop (lines 73-102) from column `colIndex` on; `columns` are the schema
entries from `colIndex` to the end. -/
def validateColumns (rowIndex : Nat) (row : List Str) : Nat → List SchemaColumn → Option Str
  | _, [] => none
  | colIndex, column :: rest =>
    match validateCell rowIndex colIndex column row[colIndex]? with
    | some error => some error
    | none => validateColumns rowIndex row (colIndex + 1) rest

/-- The message of the column-count check (lines 62 and 68). -/
def columnCountError (rowIndex : Nat) (direction : Str) (found : Nat) : Str :=
  lit "Row " ++ decimal (rowIndex + 1) ++ lit " has " ++ direction ++
    lit " columns than expected. Expected " ++ decimal schema.length ++
    lit " columns but found " ++ decimal found ++ lit "."

/-- The body of the outer loop (lines 56-102) for the row at `rowIndex`. -/
def validateRow (rowIndex : Nat) (row : List Str) : Option Str :=
  if row.length ≠ schema.length then
    if row.length > schema.length then some (columnCountError rowIndex (lit "more") row.length)
    else some (columnCountError rowIndex (lit "fewer") row.length)
  else validateColumns rowIndex row 0 schema

/-- The outer loop (lines 55-103) from row `rowIndex` on; `rows` are the rows of the
document from `rowIndex` to the end. -/
def validateRows : Nat → List (List Str) → ValidationResult
  | _, [] => ValidationResult.valid
  | rowIndex, row :: rest =>
    match validateRow rowIndex row with
    | some error => ValidationResult.invalid error
    | none => validateRows (rowIndex + 1) rest

/-- The function `validateData` (lines 48-105): the loop starts at row index 1. -/
def validateData (data : List (List Str)) : ValidationResult :=
  validateRows 1 (data.drop 1)

/-! ## The schema in the words of the specification (§4.2) -/

/-- A text value of the schema: non-empty, made only of ASCII letters, whitespace and
commas, and at most 50 characters long. -/
def TextOk (cell : Str) : Prop :=
  cell ≠ [] ∧
  (∀ u ∈ cell, (97 ≤ u ∧ u ≤ 122) ∨ (65 ≤ u ∧ u ≤ 90) ∨ isWhiteSpace u = true ∨ u = 44) ∧
  cell.length ≤ 50

/-- The value of a list of decimal digits given least significant digit first. -/
def digitsValue : List Nat → Nat
  | [] => 0
  | digit :: rest => digit + 10 * digitsValue rest

/-- The decimal value of a string of ASCII digits. -/
def decimalValue (cell : Str) : Nat := digitsValue (cell.reverse.map fun u => u - 48)

/-- An age value of the schema: a non-empty string of ASCII digits, at most 3 characters
long, whose decimal value lies in [18, 125]. -/
def AgeOk (cell : Str) : Prop :=
  cell ≠ [] ∧ (∀ u ∈ cell, 48 ≤ u ∧ u ≤ 57) ∧ cell.length ≤ 3 ∧
  18 ≤ decimalValue cell ∧ decimalValue cell ≤ 125

/-- The gender list: exactly one of the four spellings. -/
def GenderOk (cell : Str) : Prop :=
  cell = lit "Male" ∨ cell = lit "Female" ∨ cell = lit "male" ∨ cell = lit "female"

/-- What the schema asks of the cell in column `colIndex` (0-based). -/
def CellOk : Nat → Str → Prop
  | 0, cell => TextOk cell
  | 1, cell => AgeOk cell
  | 2, cell => TextOk cell
  | 3, cell => TextOk cell ∧ GenderOk cell
  | _, _ => True

/-- What the schema asks of a data row: exactly 4 fields, name, age, profession and
gender, each satisfying its column rule. -/
def RowOk (row : List Str) : Prop :=
  row.length = 4 ∧ ∀ colIndex cell, row[colIndex]? = some cell → CellOk colIndex cell

instance instDecidableTextOk (cell : Str) : Decidable (TextOk cell) := by
  unfold TextOk
  infer_instance

instance instDecidableAgeOk (cell : Str) : Decidable (AgeOk cell) := by
  unfold AgeOk
  infer_instance

instance instDecidableGenderOk (cell : Str) : Decidable (GenderOk cell) := by
  unfold GenderOk
  infer_instance

instance instDecidableCellOk : (colIndex : Nat) → (cell : Str) → Decidable (CellOk colIndex cell)
  | 0, cell => instDecidableTextOk cell
  | 1, cell => instDecidableAgeOk cell
  | 2, cell => instDecidableTextOk cell
  | 3, cell => (inferInstance : Decidable (TextOk cell ∧ GenderOk cell))
  | _ + 4, _ => isTrue trivial

/-- The field names of the four columns, in column order. -/
def columnNames : List Str := [lit "name", lit "age", lit "profession", lit "gender"]

/-- The reasons a cell diagnostic can carry for the cell `cell`. -/
def cellReasons (cell : Str) : List Str :=
  [lit "Expected letters only.", lit "Exceeds 50 character limit.",
   lit "Expected \"Male\" or \"Female\", but found \"" ++ cell ++ lit "\".",
   lit "Expected an integer.", lit "Age must be between 0 and 125.",
   lit "Age must not exceed three digits."]

/-! ## Well-formed text -/

/-- A field wrapped in the delimiter. -/
def renderField (d : Nat) (field : Str) : Str := d :: field ++ [d]

/-- A row: its wrapped fields joined by the separator, ended by the terminator. -/
def renderRow (d s t : Nat) (row : List Str) : Str :=
  List.intercalate [s] (row.map (renderField d)) ++ [t]

/-- A document: its rows one after the other. -/
def renderDocument (d s t : Nat) (document : List (List Str)) : Str :=
  (document.map (renderRow d s t)).flatten

/-- The configuration with the single-unit symbols `d`, `s` and `t`. -/
def symbols (d s t : Nat) (hasHeaders : Bool) : Config := ⟨[d], hasHeaders, [s], [t]⟩

/-- Every character of the text is a single UTF-16 code unit: the string iterator
yields the code units one by one (no high surrogate is followed by a low surrogate). -/
def SingleUnits (text : Str) : Prop := forOf text = text.map fun u => [u]

instance instDecidableSingleUnits (text : Str) : Decidable (SingleUnits text) := by
  unfold SingleUnits
  infer_instance

/-- The loop of `parseCSV` on a text of single-unit characters, with the lookahead taken
from the units still to be read. -/
def scanUnits (options : Config) : Str → ScanVars → Except Str ScanVars
  | [], v => Except.ok v
  | u :: rest, v =>
    match accumulate v [u] (scanCharacter [u] rest.head? options v.currentState) with
    | Except.error e => Except.error e
    | Except.ok v2 => scanUnits options rest v2

/-! ## Configuration loading and the driver (lines 15-47 and 180-203) -/

/-- The object returned by `JSON.parse` for the configuration file, seen through its four
properties, each holding a value of the type declared for it (a string, a boolean) or
being absent (`undefined`, embedded as `none`). -/
structure ConfigDocument where
  delimiter : Option Str
  hasHeaders : Option Bool
  separator : Option Str
  terminator : Option Str
deriving DecidableEq, Repr

/-- Truthiness of a string property: absent and the empty string are falsy. -/
def truthyStr : Option Str → Bool
  | none => false
  | some value => !value.isEmpty

/-- Truthiness of a boolean property: absent and `false` are falsy. -/
def truthyBool : Option Bool → Bool
  | none => false
  | some value => value

/-- The result object of `getConfigurationOptions`: `{ result: false, error }` or
`{ result: true, options }`. -/
inductive ConfigResult where
  | failure (error : Str)
  | success (options : Config)
deriving DecidableEq, Repr

/-- The message of a failed presence check (lines 21, 27, 33 and 39); code unit 39 is the
single quote. -/
def missingParameter (configFilePath parameter : Str) : Str :=
  lit "Configuration file " ++ [39] ++ configFilePath ++ [39] ++ lit " has no " ++ [39] ++
    parameter ++ [39] ++ lit " parameter."

/-- The function `getConfigurationOptions` (lines 15-47).  `parsed` is the outcome of
reading and parsing the file at `configFilePath`: the parsed object, or the text of the
exception caught on line 44.  The options returned are the parsed object itself. -/
def getConfigurationOptions (configFilePath : Str) (parsed : Except Str ConfigDocument) :
    ConfigResult :=
  match parsed with
  | Except.error error => ConfigResult.failure error
  | Except.ok config =>
    if truthyStr config.delimiter = false then
      ConfigResult.failure (missingParameter configFilePath (lit "delimiter"))
    else if truthyBool config.hasHeaders = false then
      ConfigResult.failure (missingParameter configFilePath (lit "hasHeaders"))
    else if truthyStr config.separator = false then
      ConfigResult.failure (missingParameter configFilePath (lit "separator"))
    else if truthyStr config.terminator = false then
      ConfigResult.failure (missingParameter configFilePath (lit "terminator"))
    else
      ConfigResult.success ⟨config.delimiter.getD [], config.hasHeaders.getD false,
        config.separator.getD [], config.terminator.getD []⟩

/-- What the process does at the end of a run: it exits with code 1, after writing a
message to the error stream or writing none, or it ends normally after reporting
"CSV data is valid.". -/
inductive Outcome where
  | exitOne (message : Option Str)
  | dataIsValid
deriving DecidableEq, Repr

/-- Truthiness of a command-line argument: absent and the empty string are falsy. -/
def truthyArgument : Option Str → Bool
  | none => false
  | some value => !value.isEmpty

/-- The top-level code of lines 180-203.  `filePath` and `configPath` are `argv[2]` and
`argv[3]`, `parsedConfig` is the outcome of reading and parsing the configuration file
and `fileContent` the content of the data file, which is taken to be readable.  A failed
scan exits with code 1 without a message (line 201 is commented out). -/
def main (filePath configPath : Option Str) (parsedConfig : Except Str ConfigDocument)
    (fileContent : Str) : Outcome :=
  if truthyArgument filePath = false ∨ truthyArgument configPath = false then
    Outcome.exitOne (some (lit "File and configuration paths are required."))
  else
    match getConfigurationOptions (configPath.getD []) parsedConfig with
    | ConfigResult.failure error => Outcome.exitOne (some error)
    | ConfigResult.success options =>
      match parseCSV fileContent options with
      | ParseResult.invalid _ => Outcome.exitOne none
      | ParseResult.valid data =>
        match validateData data with
        | ValidationResult.invalid error => Outcome.exitOne (some error)
        | ValidationResult.valid => Outcome.dataIsValid

/-- The pairs of character and lookahead that the loop of lines 144-148 hands to
`scanCharacter`, iteration by iteration, when no iteration returns early:
`currentPosition` starts at 0 and grows by one per iterated character (line 170). -/
def lookAheads (csvData : Str) : List (Str × Option Nat) :=
  (forOf csvData).enum.map fun entry => (entry.2, lookAheadAt csvData entry.1)

/-- The character that follows the one at `index`, in the units the loop iterates
over: what the specification calls the lookahead. -/
def nextCharacters (csvData : Str) : List (Str × Option Str) :=
  (forOf csvData).enum.map fun entry => (entry.2, (forOf csvData)[entry.1 + 1]?)

/-! ## The invariant of the accumulation -/

/-- A string made of one or more characters of the text, none of them the delimiter. -/
def FieldOf (csvData : Str) (config : Config) (field : Str) : Prop :=
  ∃ characters : List Str, characters ≠ [] ∧ field = characters.flatten ∧
    ∀ c ∈ characters, c ∈ forOf csvData ∧ c ≠ config.delimiter

/-- The invariant of the loop of `parseCSV`: the fields pushed so far are made of
characters of the text other than the delimiter, the buffer is empty right after an
opening delimiter, and inside a delimiter pair the buffer is such a string too. -/
def ScanInvariant (csvData : Str) (config : Config) (v : ScanVars) : Prop :=
  (∀ row ∈ v.data, ∀ field ∈ row, FieldOf csvData config field) ∧
  (∀ field ∈ v.currentDataArray, FieldOf csvData config field) ∧
  (v.currentState = some State.startDelimiter → v.currentWord = []) ∧
  (v.currentState = some State.insideDelimiter → FieldOf csvData config v.currentWord)

/-- The text holds no CR immediately followed by LF. -/
def NoCRLF (text : Str) : Prop := ¬ [13, 10] <:+: text

instance instDecidableNoCRLF (text : Str) : Decidable (NoCRLF text) := by
  unfold NoCRLF
  infer_instance

/-! ## Theorems -/

/-! ### The transition function -/

/-- C2: for every current state (`none` is the initial undefined state), character,
lookahead and configuration, `scanCharacter` follows the table of spec §4.1, read as the
ordered dispatch it is written as: (1) inside a delimiter pair a character other than the
delimiter keeps the state `insideDelimiter`; otherwise (2) the delimiter gives
`endDelimiter` from `insideDelimiter` and `startDelimiter` from every other state; the
separator gives `atSeparator` when the lookahead is the delimiter or the terminator and
`error` otherwise; the terminator gives `atTerminator` when the lookahead is absent or is
the delimiter and `error` otherwise; any other character gives `insideDelimiter` from
`startDelimiter` or `insideDelimiter` and `error` otherwise. -/
theorem scanCharacter_eq_table (char : Str) (lookAhead : Option Nat) (config : Config)
    (currentState : Option State) :
    (currentState = some State.insideDelimiter ∧ char ≠ config.delimiter →
      scanCharacter char lookAhead config currentState = State.insideDelimiter) ∧
    (¬ (currentState = some State.insideDelimiter ∧ char ≠ config.delimiter) →
      (char = config.delimiter →
        scanCharacter char lookAhead config currentState =
          if currentState = some State.insideDelimiter then State.endDelimiter
          else State.startDelimiter) ∧
      (char ≠ config.delimiter → char = config.separator →
        scanCharacter char lookAhead config currentState =
          if unitStr lookAhead = some config.delimiter ∨
              unitStr lookAhead = some config.terminator then State.atSeparator
          else State.error) ∧
      (char ≠ config.delimiter → char ≠ config.separator → char = config.terminator →
        scanCharacter char lookAhead config currentState =
          if lookAhead = none ∨ unitStr lookAhead = some config.delimiter then
            State.atTerminator
          else State.error) ∧
      (char ≠ config.delimiter → char ≠ config.separator → char ≠ config.terminator →
        scanCharacter char lookAhead config currentState =
          if currentState = some State.startDelimiter ∨
              currentState = some State.insideDelimiter then State.insideDelimiter
          else State.error)) := by
  refine ⟨fun h => by simp [scanCharacter, h], fun h => ⟨?_, ?_, ?_, ?_⟩⟩
  · intro hd
    simp [scanCharacter, hd]
  · intro hd hs
    have hin : currentState ≠ some State.insideDelimiter := fun hc => h ⟨hc, hd⟩
    subst hs
    simp only [scanCharacter, hin, hd, false_and, if_false, if_true]
    by_cases h1 : unitStr lookAhead = some config.delimiter <;>
      by_cases h2 : unitStr lookAhead = some config.terminator <;> simp [h1, h2]
  · intro hd hs ht
    have hin : currentState ≠ some State.insideDelimiter := fun hc => h ⟨hc, hd⟩
    subst ht
    simp only [scanCharacter, hin, hd, hs, false_and, if_false, if_true]
    cases lookAhead with
    | none => simp [unitStr]
    | some u => by_cases h1 : unitStr (some u) = some config.delimiter <;> simp [h1]
  · intro hd hs ht
    have hin : currentState ≠ some State.insideDelimiter := fun hc => h ⟨hc, hd⟩
    simp [scanCharacter, hin, hd, hs, ht]

/-- Witness for C2 with delimiter `"`, separator `,`, terminator line feed: after a closed
field, a separator followed by a delimiter gives `atSeparator`. -/
theorem scanCharacter_eq_table_witness :
    scanCharacter [44] (some 34) ⟨[34], true, [44], [10]⟩ (some State.endDelimiter) =
      State.atSeparator :=
  ((scanCharacter_eq_table [44] (some 34) ⟨[34], true, [44], [10]⟩
    (some State.endDelimiter)).2 (by decide)).2.1 (by decide) rfl


/-! ### The schema validator -/

theorem matchesLetters_iff (cell : Str) :
    matchesLetters cell = true ↔
      cell ≠ [] ∧
      ∀ u ∈ cell, (97 ≤ u ∧ u ≤ 122) ∨ (65 ≤ u ∧ u ≤ 90) ∨ isWhiteSpace u = true ∨ u = 44 := by
  simp only [matchesLetters, isAsciiLetter, Bool.and_eq_true, Bool.not_eq_true',
    List.isEmpty_eq_false, List.all_eq_true, Bool.or_eq_true, decide_eq_true_eq,
    beq_iff_eq, ne_eq]
  constructor
  · rintro ⟨h1, h2⟩
    refine ⟨h1, fun u hu => ?_⟩
    rcases h2 u hu with (h | h) | h
    · rcases h with h | h
      · exact Or.inl h
      · exact Or.inr (Or.inl h)
    · exact Or.inr (Or.inr (Or.inl h))
    · exact Or.inr (Or.inr (Or.inr h))
  · rintro ⟨h1, h2⟩
    refine ⟨h1, fun u hu => ?_⟩
    rcases h2 u hu with h | h | h | h
    · exact Or.inl (Or.inl (Or.inl h))
    · exact Or.inl (Or.inl (Or.inr h))
    · exact Or.inl (Or.inr h)
    · exact Or.inr h

theorem matchesDigits_iff (cell : Str) :
    matchesDigits cell = true ↔ cell ≠ [] ∧ ∀ u ∈ cell, 48 ≤ u ∧ u ≤ 57 := by
  simp [matchesDigits, isAsciiDigit]

theorem digitsValue_append (xs : List Nat) (digit : Nat) :
    digitsValue (xs ++ [digit]) = digitsValue xs + 10 ^ xs.length * digit := by
  induction xs with
  | nil => simp [digitsValue]
  | cons x xs ih => simp [digitsValue, ih, pow_succ]; ring

theorem foldl_parseInt (cell : Str) (acc : Nat) :
    cell.foldl (fun acc u => 10 * acc + (u - 48)) acc =
      acc * 10 ^ cell.length + decimalValue cell := by
  induction cell generalizing acc with
  | nil => simp [decimalValue, digitsValue]
  | cons u rest ih =>
    simp only [List.foldl_cons, ih, decimalValue, List.reverse_cons, List.map_append,
      List.map_cons, List.map_nil, digitsValue_append, List.length_cons, List.length_map,
      List.length_reverse, pow_succ]
    ring

theorem parseInt_eq_decimalValue (cell : Str) : parseInt cell = decimalValue cell := by
  simp [parseInt, foldl_parseInt]


theorem validateCell_varchar_none_iff (rowIndex colIndex : Nat) (fieldName cell : Str) :
    validateCell rowIndex colIndex ⟨ColumnType.varchar, fieldName⟩ (some cell) = none ↔
      TextOk cell ∧ (fieldName = lit "gender" → GenderOk cell) := by
  have hg : cell ∈ allowedGenders ↔ GenderOk cell := by
    simp [allowedGenders, GenderOk]
  have hm := matchesLetters_iff cell
  simp only [validateCell, TextOk]
  by_cases h1 : matchesLetters cell = true
  · have h1b := hm.mp h1
    by_cases h2 : cell.length > 50
    · simp [h1, h2]
    · by_cases h3 : fieldName = lit "gender"
      · by_cases h4 : cell ∈ allowedGenders
        · have h5 := hg.mp h4
          simp [h1, h2, h3, h4, h5, h1b]
          exact ⟨h1b.2, by omega⟩
        · have h5 : ¬ GenderOk cell := fun hc => h4 (hg.mpr hc)
          simp [h1, h2, h3, h4, h5]
      · simp [h1, h2, h3, h1b]
        exact ⟨h1b.2, by omega⟩
  · have h1b : ¬ (cell ≠ [] ∧ ∀ u ∈ cell,
        (97 ≤ u ∧ u ≤ 122) ∨ (65 ≤ u ∧ u ≤ 90) ∨ isWhiteSpace u = true ∨ u = 44) :=
      fun hc => h1 (hm.mpr hc)
    have h1c : matchesLetters cell = false := by simpa using h1
    simp only [h1c, if_true]
    constructor
    · intro hc
      cases hc
    · rintro ⟨⟨ha, hb, _⟩, _⟩
      exact absurd ⟨ha, hb⟩ h1b

theorem validateCell_integer_none_iff (rowIndex colIndex : Nat) (fieldName cell : Str) :
    validateCell rowIndex colIndex ⟨ColumnType.integer, fieldName⟩ (some cell) = none ↔
      AgeOk cell := by
  have hm := matchesDigits_iff cell
  have hp := parseInt_eq_decimalValue cell
  simp only [validateCell, AgeOk]
  by_cases h1 : matchesDigits cell = true
  · have h1b := hm.mp h1
    rw [hp]
    by_cases h2 : decimalValue cell < 18 ∨ decimalValue cell > 125
    · simp only [h1, h2, if_true]
      constructor
      · intro hc
        simp at hc
      · rintro ⟨_, _, _, h18, h125⟩
        omega
    · by_cases h3 : cell.length > 3
      · simp only [h1, h2, h3, if_true, if_false]
        constructor
        · intro hc
          simp at hc
        · rintro ⟨_, _, hlen, _, _⟩
          omega
      · simp only [h1, h2, h3, if_false]
        constructor
        · intro _
          exact ⟨h1b.1, h1b.2, by omega, by omega, by omega⟩
        · intro _
          simp
  · have h1c : matchesDigits cell = false := by simpa using h1
    simp only [h1c, if_true]
    constructor
    · intro hc
      cases hc
    · rintro ⟨ha, hb, _⟩
      exact absurd (hm.mpr ⟨ha, hb⟩) h1

/-- Every diagnostic of a cell check reads "Row R, Column C (fieldName): reason". -/
theorem validateCell_error_form (rowIndex colIndex : Nat) (column : SchemaColumn)
    (cell error : Str)
    (hage : column.type = ColumnType.integer → column.fieldName = lit "age")
    (h : validateCell rowIndex colIndex column (some cell) = some error) :
    ∃ reason, reason ∈ cellReasons cell ∧
      error = cellErrorHead rowIndex colIndex column.fieldName ++ reason := by
  obtain ⟨type, fieldName⟩ := column
  cases type with
  | varchar =>
    simp only [validateCell] at h
    split_ifs at h with h1 h2 h3
    · exact ⟨_, by simp [cellReasons], (Option.some.inj h).symm⟩
    · exact ⟨_, by simp [cellReasons], (Option.some.inj h).symm⟩
    · refine ⟨lit "Expected \"Male\" or \"Female\", but found \"" ++ cell ++ lit "\".",
        by simp [cellReasons], ?_⟩
      rw [← Option.some.inj h, h3.1]
      simp only [List.append_assoc]
  | integer =>
    have hf : fieldName = lit "age" := hage rfl
    subst hf
    simp only [validateCell] at h
    split_ifs at h with h1 h2 h3
    · exact ⟨_, by simp [cellReasons], (Option.some.inj h).symm⟩
    · exact ⟨_, by simp [cellReasons], (Option.some.inj h).symm⟩
    · exact ⟨_, by simp [cellReasons], (Option.some.inj h).symm⟩


theorem validateRow_four (rowIndex : Nat) (a b c d : Str) :
    validateRow rowIndex [a, b, c, d] =
      match validateCell rowIndex 0 ⟨ColumnType.varchar, lit "name"⟩ (some a) with
      | some error => some error
      | none =>
        match validateCell rowIndex 1 ⟨ColumnType.integer, lit "age"⟩ (some b) with
        | some error => some error
        | none =>
          match validateCell rowIndex 2 ⟨ColumnType.varchar, lit "profession"⟩ (some c) with
          | some error => some error
          | none =>
            match validateCell rowIndex 3 ⟨ColumnType.varchar, lit "gender"⟩ (some d) with
            | some error => some error
            | none => none := by
  simp [validateRow, validateColumns, schema]

theorem eq_four_of_length {row : List Str} (h : row.length = 4) :
    ∃ a b c d, row = [a, b, c, d] := by
  match row, h with
  | [a, b, c, d], _ => exact ⟨a, b, c, d, rfl⟩

theorem validateRow_length_ne (rowIndex : Nat) (row : List Str) (h : row.length ≠ 4) :
    validateRow rowIndex row =
      some (columnCountError rowIndex (if row.length > 4 then lit "more" else lit "fewer")
        row.length) := by
  have hs : schema.length = 4 := rfl
  simp only [validateRow, hs, h, ne_eq, not_false_eq_true, if_true]
  split_ifs <;> rfl

theorem name_ne_gender : lit "name" ≠ lit "gender" := by decide

theorem profession_ne_gender : lit "profession" ≠ lit "gender" := by decide

theorem cellOk_name_iff (rowIndex : Nat) (cell : Str) :
    validateCell rowIndex 0 ⟨ColumnType.varchar, lit "name"⟩ (some cell) = none ↔
      CellOk 0 cell := by
  rw [validateCell_varchar_none_iff]
  simp [CellOk, name_ne_gender]

theorem cellOk_age_iff (rowIndex : Nat) (cell : Str) :
    validateCell rowIndex 1 ⟨ColumnType.integer, lit "age"⟩ (some cell) = none ↔
      CellOk 1 cell := by
  rw [validateCell_integer_none_iff]
  simp [CellOk]

theorem cellOk_profession_iff (rowIndex : Nat) (cell : Str) :
    validateCell rowIndex 2 ⟨ColumnType.varchar, lit "profession"⟩ (some cell) = none ↔
      CellOk 2 cell := by
  rw [validateCell_varchar_none_iff]
  simp [CellOk, profession_ne_gender]

theorem cellOk_gender_iff (rowIndex : Nat) (cell : Str) :
    validateCell rowIndex 3 ⟨ColumnType.varchar, lit "gender"⟩ (some cell) = none ↔
      CellOk 3 cell := by
  rw [validateCell_varchar_none_iff]
  simp [CellOk]

theorem rowOk_four_iff (a b c d : Str) :
    RowOk [a, b, c, d] ↔ CellOk 0 a ∧ CellOk 1 b ∧ CellOk 2 c ∧ CellOk 3 d := by
  constructor
  · rintro ⟨_, h⟩
    exact ⟨h 0 a rfl, h 1 b rfl, h 2 c rfl, h 3 d rfl⟩
  · rintro ⟨h0, h1, h2, h3⟩
    refine ⟨rfl, fun j cell hj => ?_⟩
    match j, hj with
    | 0, hj => simp at hj; subst hj; exact h0
    | 1, hj => simp at hj; subst hj; exact h1
    | 2, hj => simp at hj; subst hj; exact h2
    | 3, hj => simp at hj; subst hj; exact h3
    | _ + 4, hj => simp at hj

theorem validateRow_none_iff (rowIndex : Nat) (row : List Str) :
    validateRow rowIndex row = none ↔ RowOk row := by
  by_cases hlen : row.length = 4
  · obtain ⟨a, b, c, d, rfl⟩ := eq_four_of_length hlen
    rw [rowOk_four_iff, validateRow_four, ← cellOk_name_iff rowIndex, ← cellOk_age_iff rowIndex,
      ← cellOk_profession_iff rowIndex, ← cellOk_gender_iff rowIndex]
    cases validateCell rowIndex 0 ⟨ColumnType.varchar, lit "name"⟩ (some a) <;>
    cases validateCell rowIndex 1 ⟨ColumnType.integer, lit "age"⟩ (some b) <;>
    cases validateCell rowIndex 2 ⟨ColumnType.varchar, lit "profession"⟩ (some c) <;>
    cases validateCell rowIndex 3 ⟨ColumnType.varchar, lit "gender"⟩ (some d) <;> simp
  · rw [validateRow_length_ne rowIndex row hlen]
    constructor
    · intro h
      cases h
    · rintro ⟨h, _⟩
      exact absurd h hlen

/-- In a row of 4 fields whose leftmost violating column is `colIndex`, the row check
returns a diagnostic addressed to that column. -/
theorem validateRow_leftmost (rowIndex : Nat) (row : List Str) (hlen : row.length = 4)
    (colIndex : Nat) (cell : Str) (hcell : row[colIndex]? = some cell)
    (hbefore : ∀ k c, k < colIndex → row[k]? = some c → CellOk k c)
    (hbad : ¬ CellOk colIndex cell) :
    ∃ name reason, columnNames[colIndex]? = some name ∧ reason ∈ cellReasons cell ∧
      validateRow rowIndex row = some (cellErrorHead rowIndex colIndex name ++ reason) := by
  obtain ⟨a, b, c, d, rfl⟩ := eq_four_of_length hlen
  match colIndex, hcell, hbefore, hbad with
  | 0, hcell, _, hbad =>
    simp at hcell; subst hcell
    rw [← cellOk_name_iff rowIndex] at hbad
    obtain ⟨e, he⟩ := Option.ne_none_iff_exists'.mp hbad
    obtain ⟨reason, hr, hform⟩ := validateCell_error_form rowIndex 0 _ _ e (by simp) he
    exact ⟨lit "name", reason, rfl, hr, by rw [validateRow_four, he, hform]⟩
  | 1, hcell, hbefore, hbad =>
    simp at hcell; subst hcell
    have h0 := (cellOk_name_iff rowIndex a).mpr (hbefore 0 a (by omega) rfl)
    rw [← cellOk_age_iff rowIndex] at hbad
    obtain ⟨e, he⟩ := Option.ne_none_iff_exists'.mp hbad
    obtain ⟨reason, hr, hform⟩ := validateCell_error_form rowIndex 1 _ _ e (by simp) he
    exact ⟨lit "age", reason, rfl, hr, by rw [validateRow_four, h0, he, hform]⟩
  | 2, hcell, hbefore, hbad =>
    simp at hcell; subst hcell
    have h0 := (cellOk_name_iff rowIndex a).mpr (hbefore 0 a (by omega) rfl)
    have h1 := (cellOk_age_iff rowIndex b).mpr (hbefore 1 b (by omega) rfl)
    rw [← cellOk_profession_iff rowIndex] at hbad
    obtain ⟨e, he⟩ := Option.ne_none_iff_exists'.mp hbad
    obtain ⟨reason, hr, hform⟩ := validateCell_error_form rowIndex 2 _ _ e (by simp) he
    exact ⟨lit "profession", reason, rfl, hr, by rw [validateRow_four, h0, h1, he, hform]⟩
  | 3, hcell, hbefore, hbad =>
    simp at hcell; subst hcell
    have h0 := (cellOk_name_iff rowIndex a).mpr (hbefore 0 a (by omega) rfl)
    have h1 := (cellOk_age_iff rowIndex b).mpr (hbefore 1 b (by omega) rfl)
    have h2 := (cellOk_profession_iff rowIndex c).mpr (hbefore 2 c (by omega) rfl)
    rw [← cellOk_gender_iff rowIndex] at hbad
    obtain ⟨e, he⟩ := Option.ne_none_iff_exists'.mp hbad
    obtain ⟨reason, hr, hform⟩ := validateCell_error_form rowIndex 3 _ _ e (by simp) he
    exact ⟨lit "gender", reason, rfl, hr, by rw [validateRow_four, h0, h1, h2, he, hform]⟩
  | _ + 4, hcell, _, _ => simp at hcell


theorem validateRows_valid_iff (rows : List (List Str)) (rowIndex : Nat) :
    validateRows rowIndex rows = ValidationResult.valid ↔ ∀ row ∈ rows, RowOk row := by
  induction rows generalizing rowIndex with
  | nil => simp [validateRows]
  | cons row rest ih =>
    simp only [validateRows, List.mem_cons, forall_eq_or_imp]
    cases h : validateRow rowIndex row with
    | none =>
      have hok := (validateRow_none_iff rowIndex row).mp h
      simp [ih, hok]
    | some e =>
      have hbad : ¬ RowOk row := fun hc => by
        rw [(validateRow_none_iff rowIndex row).mpr hc] at h
        cases h
      simp [hbad]

/-- The outer loop returns the diagnostic of the first row that fails its check. -/
theorem validateRows_first (rows : List (List Str)) (rowIndex k : Nat) (row : List Str)
    (error : Str) (hprev : ∀ j r, j < k → rows[j]? = some r → RowOk r)
    (hrow : rows[k]? = some row) (herr : validateRow (rowIndex + k) row = some error) :
    validateRows rowIndex rows = ValidationResult.invalid error := by
  induction rows generalizing rowIndex k with
  | nil => simp at hrow
  | cons first rest ih =>
    cases k with
    | zero =>
      simp at hrow
      subst hrow
      simp only [Nat.add_zero] at herr
      simp [validateRows, herr]
    | succ k =>
      have hfirst := (validateRow_none_iff rowIndex first).mpr (hprev 0 first (by omega) (by simp))
      simp only [validateRows, hfirst]
      refine ih (rowIndex + 1) k (fun j r hj hr => hprev (j + 1) r (by omega) (by simpa using hr))
        (by simpa using hrow) ?_
      rw [← herr]
      congr 1
      omega

/-- The validator returns the diagnostic of the first violating row of index at least 1,
computed with that row index. -/
theorem validateData_first (data : List (List Str)) (i : Nat) (row : List Str) (error : Str)
    (hi : 1 ≤ i) (hprev : ∀ k r, 1 ≤ k → k < i → data[k]? = some r → RowOk r)
    (hrow : data[i]? = some row) (herr : validateRow i row = some error) :
    validateData data = ValidationResult.invalid error := by
  obtain ⟨k, rfl⟩ : ∃ k, i = 1 + k := ⟨i - 1, by omega⟩
  refine validateRows_first (data.drop 1) 1 k row error (fun j r hj hr => ?_) ?_ herr
  · rw [List.getElem?_drop] at hr
    exact hprev (1 + j) r (by omega) (by omega) hr
  · rw [List.getElem?_drop]
    exact hrow

theorem decimal_two : decimal 2 = lit "2" := by decide

theorem decimal_four : decimal 4 = lit "4" := by decide

/-- C3: `validateData` returns success if and only if every row of index at least 1 has
exactly 4 fields, with fields 0 (name), 2 (profession) and 3 (gender) non-empty, made only of
ASCII letters, whitespace and commas and at most 50 characters long, field 3 one of
"Male", "Female", "male", "female", and field 1 (age) a non-empty string of ASCII
digits, at most 3 characters long, whose decimal value lies in [18, 125]. -/
theorem validateData_valid_iff (data : List (List Str)) :
    validateData data = ValidationResult.valid ↔
      ∀ i row, 1 ≤ i → data[i]? = some row →
        row.length = 4 ∧
        (∀ name, row[0]? = some name → TextOk name) ∧
        (∀ age, row[1]? = some age →
          age ≠ [] ∧ (∀ u ∈ age, 48 ≤ u ∧ u ≤ 57) ∧ age.length ≤ 3 ∧
            18 ≤ decimalValue age ∧ decimalValue age ≤ 125) ∧
        (∀ profession, row[2]? = some profession → TextOk profession) ∧
        (∀ gender, row[3]? = some gender →
          TextOk gender ∧
            (gender = lit "Male" ∨ gender = lit "Female" ∨ gender = lit "male" ∨
              gender = lit "female")) := by
  rw [validateData, validateRows_valid_iff]
  constructor
  · intro h i row hi hrow
    obtain ⟨k, rfl⟩ : ∃ k, i = 1 + k := ⟨i - 1, by omega⟩
    have hmem : row ∈ data.drop 1 := by
      rw [← List.getElem?_drop] at hrow
      exact List.getElem?_mem hrow
    obtain ⟨hlen, hcells⟩ := h row hmem
    exact ⟨hlen, fun c hc => hcells 0 c hc, fun c hc => hcells 1 c hc,
      fun c hc => hcells 2 c hc, fun c hc => hcells 3 c hc⟩
  · intro h row hmem
    obtain ⟨k, hk⟩ := List.getElem?_of_mem hmem
    rw [List.getElem?_drop] at hk
    obtain ⟨hlen, h0, h1, h2, h3⟩ := h (1 + k) row (by omega) hk
    obtain ⟨a, b, c, d, rfl⟩ := eq_four_of_length hlen
    rw [rowOk_four_iff]
    exact ⟨h0 a rfl, h1 b rfl, h2 c rfl, h3 d rfl⟩


theorem columnCountError_more (rowIndex found : Nat) :
    columnCountError rowIndex (lit "more") found =
      lit "Row " ++ decimal (rowIndex + 1) ++
        lit " has more columns than expected. Expected 4 columns but found " ++
        decimal found ++ lit "." := by
  simp only [columnCountError, List.append_assoc]
  rfl

theorem columnCountError_text (rowIndex found : Nat) (direction : Str) :
    columnCountError rowIndex direction found =
      lit "Row " ++ decimal (rowIndex + 1) ++ lit " has " ++ direction ++
        lit " columns than expected. Expected 4 columns but found " ++
        decimal found ++ lit "." := by
  simp only [columnCountError, List.append_assoc]
  rfl

theorem columnCountError_fewer (rowIndex found : Nat) :
    columnCountError rowIndex (lit "fewer") found =
      lit "Row " ++ decimal (rowIndex + 1) ++
        lit " has fewer columns than expected. Expected 4 columns but found " ++
        decimal found ++ lit "." := by
  simp only [columnCountError, List.append_assoc]
  rfl

theorem ageRangeError_text (rowIndex : Nat) :
    cellErrorHead rowIndex 1 (lit "age") ++ lit "Age must be between 0 and 125." =
      lit "Row " ++ decimal (rowIndex + 1) ++
        lit ", Column 2 (age): Age must be between 0 and 125." := by
  simp only [cellErrorHead, List.append_assoc]
  rfl

/-- A row of 4 fields that violates the schema has a leftmost violating column. -/
theorem exists_leftmost_violation (row : List Str) (hlen : row.length = 4)
    (hbad : ¬ RowOk row) :
    ∃ colIndex cell, row[colIndex]? = some cell ∧
      (∀ k c, k < colIndex → row[k]? = some c → CellOk k c) ∧ ¬ CellOk colIndex cell := by
  obtain ⟨a, b, c, d, rfl⟩ := eq_four_of_length hlen
  rw [rowOk_four_iff] at hbad
  by_cases h0 : CellOk 0 a
  · by_cases h1 : CellOk 1 b
    · by_cases h2 : CellOk 2 c
      · have h3 : ¬ CellOk 3 d := fun hc => hbad ⟨h0, h1, h2, hc⟩
        refine ⟨3, d, rfl, fun k x hk hx => ?_, h3⟩
        interval_cases k <;> simp at hx <;> subst hx <;> assumption
      · refine ⟨2, c, rfl, fun k x hk hx => ?_, h2⟩
        interval_cases k <;> simp at hx <;> subst hx <;> assumption
    · refine ⟨1, b, rfl, fun k x hk hx => ?_, h1⟩
      obtain rfl : k = 0 := by omega
      simp at hx
      subst hx
      exact h0
  · exact ⟨0, a, rfl, fun k x hk _ => absurd hk (Nat.not_lt_zero k), h0⟩


/-- C4: first failure wins.  When row `i` (of index at least 1) is the first row that
violates the schema, the error returned addresses that row, displayed as `i + 1`; when
the row does not have 4 fields the error is the column-count error whatever the cells
hold (the count is decided before any cell check); and when it has 4 fields the error
addresses the leftmost violating column, displayed 1-based and followed by that column's
schema name (name, age, profession, gender). -/
theorem validateData_first_failure (data : List (List Str)) (i : Nat) (row : List Str)
    (hi : 1 ≤ i) (hprev : ∀ k r, 1 ≤ k → k < i → data[k]? = some r → RowOk r)
    (hrow : data[i]? = some row) (hbad : ¬ RowOk row) :
    (∃ rest, validateData data =
        ValidationResult.invalid (lit "Row " ++ decimal (i + 1) ++ rest) ∧
      (lit " has " <+: rest ∨ lit ", Column " <+: rest)) ∧
    (row.length ≠ 4 →
      ∃ direction, (direction = lit "more" ∨ direction = lit "fewer") ∧
        validateData data =
          ValidationResult.invalid (lit "Row " ++ decimal (i + 1) ++ lit " has " ++ direction ++
            lit " columns than expected. Expected 4 columns but found " ++
            decimal row.length ++ lit ".")) ∧
    (row.length = 4 →
      ∀ colIndex cell, row[colIndex]? = some cell →
        (∀ k c, k < colIndex → row[k]? = some c → CellOk k c) → ¬ CellOk colIndex cell →
        ∃ name reason, columnNames[colIndex]? = some name ∧ reason ∈ cellReasons cell ∧
          validateData data =
            ValidationResult.invalid (lit "Row " ++ decimal (i + 1) ++ lit ", Column " ++
              decimal (colIndex + 1) ++ lit " (" ++ name ++ lit "): " ++ reason)) := by
  have hcount : row.length ≠ 4 →
      ∃ direction, (direction = lit "more" ∨ direction = lit "fewer") ∧
        validateData data =
          ValidationResult.invalid (lit "Row " ++ decimal (i + 1) ++ lit " has " ++ direction ++
            lit " columns than expected. Expected 4 columns but found " ++
            decimal row.length ++ lit ".") := by
    intro hlen
    have herr := validateRow_length_ne i row hlen
    rw [validateData_first data i row _ hi hprev hrow herr]
    by_cases hgt : row.length > 4
    · exact ⟨lit "more", Or.inl rfl, by rw [if_pos hgt, columnCountError_text]⟩
    · exact ⟨lit "fewer", Or.inr rfl, by rw [if_neg hgt, columnCountError_text]⟩
  have hcell : row.length = 4 →
      ∀ colIndex cell, row[colIndex]? = some cell →
        (∀ k c, k < colIndex → row[k]? = some c → CellOk k c) → ¬ CellOk colIndex cell →
        ∃ name reason, columnNames[colIndex]? = some name ∧ reason ∈ cellReasons cell ∧
          validateData data =
            ValidationResult.invalid (lit "Row " ++ decimal (i + 1) ++ lit ", Column " ++
              decimal (colIndex + 1) ++ lit " (" ++ name ++ lit "): " ++ reason) := by
    intro hlen colIndex cell hc hbefore hcbad
    obtain ⟨name, reason, hname, hreason, herr⟩ :=
      validateRow_leftmost i row hlen colIndex cell hc hbefore hcbad
    exact ⟨name, reason, hname, hreason, validateData_first data i row _ hi hprev hrow herr⟩
  refine ⟨?_, hcount, hcell⟩
  by_cases hlen : row.length = 4
  · obtain ⟨colIndex, cell, hc, hbefore, hcbad⟩ := exists_leftmost_violation row hlen hbad
    obtain ⟨name, reason, _, _, hres⟩ := hcell hlen colIndex cell hc hbefore hcbad
    refine ⟨lit ", Column " ++ decimal (colIndex + 1) ++ lit " (" ++ name ++ lit "): " ++ reason,
      ?_, Or.inr ?_⟩
    · rw [hres]
      simp only [List.append_assoc]
    · simp only [List.append_assoc]
      exact List.prefix_append _ _
  · obtain ⟨direction, _, hres⟩ := hcount hlen
    refine ⟨lit " has " ++ direction ++
      lit " columns than expected. Expected 4 columns but found " ++
      decimal row.length ++ lit ".", ?_, Or.inl ?_⟩
    · rw [hres]
      simp only [List.append_assoc]
    · simp only [List.append_assoc]
      exact List.prefix_append _ _

/-- Witness for C4: a header row followed by [Cara, 40, Chef3, Female] gives the error
for row 2, column 3 (profession), reason "Expected letters only.". -/
theorem validateData_first_failure_witness :
    (∃ name reason, columnNames[2]? = some name ∧ reason ∈ cellReasons (lit "Chef3") ∧
      validateData [[lit "name", lit "age", lit "prof", lit "gender"],
          [lit "Cara", lit "40", lit "Chef3", lit "Female"]] =
        ValidationResult.invalid (lit "Row " ++ decimal (1 + 1) ++ lit ", Column " ++
          decimal (2 + 1) ++ lit " (" ++ name ++ lit "): " ++ reason)) ∧
    validateData [[lit "name", lit "age", lit "prof", lit "gender"],
        [lit "Cara", lit "40", lit "Chef3", lit "Female"]] =
      ValidationResult.invalid (lit "Row 2, Column 3 (profession): Expected letters only.") :=
  ⟨(validateData_first_failure
      [[lit "name", lit "age", lit "prof", lit "gender"],
        [lit "Cara", lit "40", lit "Chef3", lit "Female"]]
      1 [lit "Cara", lit "40", lit "Chef3", lit "Female"] (by decide)
      (fun k _ h1 h2 _ => absurd h2 (by omega)) rfl
      (fun h => absurd (h.2 2 (lit "Chef3") rfl) (by decide))).2.2 rfl 2 (lit "Chef3") rfl
      (fun k c hk hc => by
        interval_cases k <;> simp at hc <;> subst hc <;> decide)
      (by decide),
    by decide⟩

/-- C9: the column-count diagnostic.  When the first violating row, of index `i` at least
1, has `n` fields with `n` different from 4, the error is "Row i+1 has more columns than
expected. Expected 4 columns but found n." when `n > 4` and "Row i+1 has fewer columns
than expected. Expected 4 columns but found n." when `n < 4`; no cell of the row is
examined: replacing the row by any other row with as many fields leaves the result
unchanged. -/
theorem validateData_column_count (data : List (List Str)) (i : Nat) (row : List Str)
    (hi : 1 ≤ i) (hprev : ∀ k r, 1 ≤ k → k < i → data[k]? = some r → RowOk r)
    (hrow : data[i]? = some row) (hn : row.length ≠ 4) :
    (4 < row.length →
      validateData data =
        ValidationResult.invalid (lit "Row " ++ decimal (i + 1) ++
          lit " has more columns than expected. Expected 4 columns but found " ++
          decimal row.length ++ lit ".")) ∧
    (row.length < 4 →
      validateData data =
        ValidationResult.invalid (lit "Row " ++ decimal (i + 1) ++
          lit " has fewer columns than expected. Expected 4 columns but found " ++
          decimal row.length ++ lit ".")) ∧
    (∀ other : List Str, other.length = row.length →
      validateData (data.set i other) = validateData data) := by
  have herr := validateRow_length_ne i row hn
  have hres := validateData_first data i row _ hi hprev hrow herr
  refine ⟨fun hgt => ?_, fun hlt => ?_, fun other hlen => ?_⟩
  · rw [hres, if_pos hgt, columnCountError_more]
  · rw [hres, if_neg (by omega), columnCountError_fewer]
  · have hlt : i < data.length := by
      rcases List.getElem?_eq_some.mp hrow with ⟨h, _⟩
      exact h
    have herr2 := validateRow_length_ne i other (by omega)
    rw [hlen] at herr2
    rw [hres]
    refine validateData_first (data.set i other) i other _ hi (fun k r h1 h2 hk => ?_) ?_ herr2
    · rw [List.getElem?_set_ne (by omega)] at hk
      exact hprev k r h1 h2 hk
    · simp [List.getElem?_set, hlt]

/-- Witness for C9: a header row followed by a data row with 3 fields gives the
fewer-columns error with expected 4 and found 3. -/
theorem validateData_column_count_witness :
    validateData [[lit "name", lit "age", lit "prof", lit "gender"],
        [lit "Dee", lit "30", lit "Pilot"]] =
      ValidationResult.invalid (lit "Row " ++ decimal (1 + 1) ++
        lit " has fewer columns than expected. Expected 4 columns but found " ++
        decimal [lit "Dee", lit "30", lit "Pilot"].length ++ lit ".") ∧
    lit "Row " ++ decimal (1 + 1) ++
        lit " has fewer columns than expected. Expected 4 columns but found " ++
        decimal [lit "Dee", lit "30", lit "Pilot"].length ++ lit "." =
      lit "Row 2 has fewer columns than expected. Expected 4 columns but found 3." :=
  ⟨(validateData_column_count
      [[lit "name", lit "age", lit "prof", lit "gender"], [lit "Dee", lit "30", lit "Pilot"]]
      1 [lit "Dee", lit "30", lit "Pilot"] (by decide)
      (fun k _ h1 h2 _ => absurd h2 (by omega)) rfl (by decide)).2.1 (by decide),
    by decide⟩

/-- C10: the age range check comes before the age length check.  When the first violating
cell of the document is the age cell of row `i` and that cell is a non-empty string of
ASCII digits whose value is below 18 or above 125, whatever its length, the error is
"Row i+1, Column 2 (age): Age must be between 0 and 125.". -/
theorem validateData_age_range (data : List (List Str)) (i : Nat)
    (name age profession gender : Str) (hi : 1 ≤ i)
    (hprev : ∀ k r, 1 ≤ k → k < i → data[k]? = some r → RowOk r)
    (hrow : data[i]? = some [name, age, profession, gender]) (hname : TextOk name)
    (hne : age ≠ []) (hdigits : ∀ u ∈ age, 48 ≤ u ∧ u ≤ 57)
    (hrange : decimalValue age < 18 ∨ 125 < decimalValue age) :
    validateData data =
      ValidationResult.invalid (lit "Row " ++ decimal (i + 1) ++
        lit ", Column 2 (age): Age must be between 0 and 125.") := by
  have h0 : validateCell i 0 ⟨ColumnType.varchar, lit "name"⟩ (some name) = none :=
    (cellOk_name_iff i name).mpr hname
  have hm : matchesDigits age = true := (matchesDigits_iff age).mpr ⟨hne, hdigits⟩
  have h1 : validateCell i 1 ⟨ColumnType.integer, lit "age"⟩ (some age) =
      some (cellErrorHead i 1 (lit "age") ++ lit "Age must be between 0 and 125.") := by
    have hr : parseInt age < 18 ∨ parseInt age > 125 := by
      rw [parseInt_eq_decimalValue]
      exact hrange
    simp [validateCell, hm, hr]
  have herr : validateRow i [name, age, profession, gender] =
      some (cellErrorHead i 1 (lit "age") ++ lit "Age must be between 0 and 125.") := by
    rw [validateRow_four, h0, h1]
  rw [validateData_first data i _ _ hi hprev hrow herr, ageRangeError_text]

/-- Witness for C10: after a header row, age "17" gives the range error for row 2, and
age "200" gives the range error, not the three-digit error. -/
theorem validateData_age_range_witness :
    validateData [[lit "name", lit "age", lit "prof", lit "gender"],
        [lit "Bob", lit "17", lit "Clerk", lit "Male"]] =
      ValidationResult.invalid (lit "Row " ++ decimal (1 + 1) ++
        lit ", Column 2 (age): Age must be between 0 and 125.") ∧
    validateData [[lit "name", lit "age", lit "prof", lit "gender"],
        [lit "Dee", lit "200", lit "Pilot", lit "Female"]] =
      ValidationResult.invalid (lit "Row " ++ decimal (1 + 1) ++
        lit ", Column 2 (age): Age must be between 0 and 125.") ∧
    lit "Row " ++ decimal (1 + 1) ++ lit ", Column 2 (age): Age must be between 0 and 125." =
      lit "Row 2, Column 2 (age): Age must be between 0 and 125." :=
  ⟨validateData_age_range _ 1 (lit "Bob") (lit "17") (lit "Clerk") (lit "Male") (by decide)
      (fun k _ h1 h2 _ => absurd h2 (by omega)) rfl (by decide) (by decide) (by decide)
      (by decide),
    validateData_age_range _ 1 (lit "Dee") (lit "200") (lit "Pilot") (lit "Female") (by decide)
      (fun k _ h1 h2 _ => absurd h2 (by omega)) rfl (by decide) (by decide) (by decide)
      (by decide),
    by decide⟩


/-! ### The scanner on texts of single-unit characters -/

theorem lookAheadAt_append (front : Str) (u : Nat) (rest : Str) :
    lookAheadAt (front ++ u :: rest) front.length = rest.head? := by
  have hlt : front.length < (front ++ u :: rest).length := by simp
  have hidx : (front ++ u :: rest)[front.length + 1]? = rest.head? := by
    rw [List.getElem?_append_right (by omega)]
    cases rest <;> simp
  rw [lookAheadAt, if_pos hlt, hidx]

theorem accumulate_startDelimiter (v : ScanVars) (character : Str) :
    accumulate v character State.startDelimiter =
      Except.ok ⟨some State.startDelimiter, v.data, v.currentDataArray,
        v.currentPosition + 1, []⟩ := by
  simp [accumulate]

theorem accumulate_insideDelimiter (v : ScanVars) (character : Str) :
    accumulate v character State.insideDelimiter =
      Except.ok ⟨some State.insideDelimiter, v.data, v.currentDataArray,
        v.currentPosition + 1, v.currentWord ++ character⟩ := by
  simp [accumulate]

theorem accumulate_endDelimiter (v : ScanVars) (character : Str) :
    accumulate v character State.endDelimiter =
      Except.ok ⟨some State.endDelimiter, v.data, v.currentDataArray ++ [v.currentWord],
        v.currentPosition + 1, []⟩ := by
  simp [accumulate]

theorem accumulate_atSeparator (v : ScanVars) (character : Str) :
    accumulate v character State.atSeparator =
      Except.ok ⟨some State.atSeparator, v.data, v.currentDataArray,
        v.currentPosition + 1, v.currentWord⟩ := by
  simp [accumulate]

theorem accumulate_atTerminator (v : ScanVars) (character : Str) :
    accumulate v character State.atTerminator =
      Except.ok ⟨some State.atTerminator, v.data ++ [v.currentDataArray], [],
        v.currentPosition + 1, v.currentWord⟩ := by
  simp [accumulate]

theorem accumulate_error (v : ScanVars) (character : Str) :
    accumulate v character State.error = Except.error (positionError v.currentPosition) := by
  simp [accumulate]

theorem accumulate_position (v v2 : ScanVars) (character : Str) (state : State)
    (h : accumulate v character state = Except.ok v2) :
    v2.currentPosition = v.currentPosition + 1 := by
  cases state
  · rw [accumulate_startDelimiter] at h
    cases h
    rfl
  · rw [accumulate_insideDelimiter] at h
    cases h
    rfl
  · rw [accumulate_endDelimiter] at h
    cases h
    rfl
  · rw [accumulate_atSeparator] at h
    cases h
    rfl
  · rw [accumulate_atTerminator] at h
    cases h
    rfl
  · rw [accumulate_error] at h
    cases h

/-- On a text of single-unit characters the loop reads as lookahead the unit that follows
the current one. -/
theorem scanLoop_eq_scanUnits (options : Config) (rest front : Str) (v : ScanVars)
    (hpos : v.currentPosition = front.length) :
    scanLoop (front ++ rest) options (rest.map fun u => [u]) v = scanUnits options rest v := by
  induction rest generalizing front v with
  | nil => simp [scanLoop, scanUnits]
  | cons u rest ih =>
    simp only [List.map_cons, scanLoop, scanUnits, loopBody, hpos, lookAheadAt_append]
    cases hacc : accumulate v [u] (scanCharacter [u] rest.head? options v.currentState) with
    | error e => rfl
    | ok v2 =>
      have h2 := accumulate_position v v2 _ _ hacc
      have := ih (front ++ [u]) v2 (by simp [h2, hpos])
      simpa using this

theorem scan_eq_scanUnits (options : Config) (text : Str) (h : SingleUnits text) :
    scan text options =
      match scanUnits options text initialVars with
      | Except.error e => ParseResult.invalid e
      | Except.ok v => finalize v := by
  unfold SingleUnits at h
  have := scanLoop_eq_scanUnits options text [] initialVars rfl
  simp only [List.nil_append] at this
  rw [scan, h, this]


theorem scanCharacter_open (d s t u : Nat) (hasHeaders : Bool) (lookAhead : Option Nat)
    (state : Option State) (hstate : state ≠ some State.insideDelimiter) (hu : u = d) :
    scanCharacter [u] lookAhead (symbols d s t hasHeaders) state = State.startDelimiter := by
  simp [scanCharacter, symbols, hstate, hu]

theorem scanCharacter_close (d s t : Nat) (hasHeaders : Bool) (lookAhead : Option Nat) :
    scanCharacter [d] lookAhead (symbols d s t hasHeaders) (some State.insideDelimiter) =
      State.endDelimiter := by
  simp [scanCharacter, symbols]

theorem scanCharacter_content (d s t u : Nat) (hasHeaders : Bool) (lookAhead : Option Nat)
    (hu : u ≠ d) :
    scanCharacter [u] lookAhead (symbols d s t hasHeaders) (some State.insideDelimiter) =
      State.insideDelimiter := by
  simp [scanCharacter, symbols, hu]

theorem scanCharacter_first (d s t u : Nat) (hasHeaders : Bool) (lookAhead : Option Nat)
    (hd : u ≠ d) (hs : u ≠ s) (ht : u ≠ t) :
    scanCharacter [u] lookAhead (symbols d s t hasHeaders) (some State.startDelimiter) =
      State.insideDelimiter := by
  simp [scanCharacter, symbols, hd, hs, ht]

theorem scanCharacter_separator (d s t : Nat) (hasHeaders : Bool) (lookAhead : Option Nat)
    (state : Option State) (hstate : state ≠ some State.insideDelimiter) (hds : d ≠ s)
    (hla : lookAhead = some d ∨ lookAhead = some t) :
    scanCharacter [s] lookAhead (symbols d s t hasHeaders) state = State.atSeparator := by
  have hsd : s ≠ d := fun h => hds h.symm
  rcases hla with h | h <;> simp [scanCharacter, symbols, hstate, hsd, h, unitStr]

theorem scanCharacter_terminator (d s t : Nat) (hasHeaders : Bool) (lookAhead : Option Nat)
    (state : Option State) (hstate : state ≠ some State.insideDelimiter) (hdt : d ≠ t)
    (hst : s ≠ t) (hla : lookAhead = none ∨ lookAhead = some d) :
    scanCharacter [t] lookAhead (symbols d s t hasHeaders) state = State.atTerminator := by
  have htd : t ≠ d := fun h => hdt h.symm
  have hts : t ≠ s := fun h => hst h.symm
  rcases hla with h | h <;> simp [scanCharacter, symbols, hstate, htd, hts, h, unitStr]

/-- Inside a delimiter pair, characters other than the delimiter are appended to the
current word. -/
theorem scanUnits_content (d s t : Nat) (hasHeaders : Bool) (content rest : Str)
    (data : List (List Str)) (row : List Str) (position : Nat) (word : Str)
    (hd : ¬ d ∈ content) :
    scanUnits (symbols d s t hasHeaders) (content ++ rest)
        ⟨some State.insideDelimiter, data, row, position, word⟩ =
      scanUnits (symbols d s t hasHeaders) rest
        ⟨some State.insideDelimiter, data, row, position + content.length, word ++ content⟩ := by
  induction content generalizing position word with
  | nil => simp
  | cons u content ih =>
    have hu : u ≠ d := fun h => hd (by simp [h])
    have hrest : ¬ d ∈ content := fun h => hd (List.mem_cons_of_mem _ h)
    rw [List.cons_append]
    simp only [scanUnits, scanCharacter_content d s t u hasHeaders _ hu,
      accumulate_insideDelimiter]
    rw [ih _ _ hrest]
    simp only [List.length_cons, List.append_assoc, List.singleton_append]
    congr 2
    omega

theorem renderField_append (d : Nat) (field rest : Str) :
    renderField d field ++ rest = d :: (field ++ d :: rest) := by
  simp [renderField]

/-- A wrapped field is scanned to the end of its closing delimiter: a non-empty field is
pushed on the current row; an empty one leaves the row as it was, in state
`startDelimiter`. -/
theorem scanUnits_field (d s t : Nat) (hasHeaders : Bool) (field rest : Str) (v : ScanVars)
    (hstate : v.currentState ≠ some State.insideDelimiter) (hd : ¬ d ∈ field)
    (hs : field.head? ≠ some s) (ht : field.head? ≠ some t) :
    ∃ position, scanUnits (symbols d s t hasHeaders) (renderField d field ++ rest) v =
      scanUnits (symbols d s t hasHeaders) rest
        ⟨some (if field = [] then State.startDelimiter else State.endDelimiter), v.data,
          if field = [] then v.currentDataArray else v.currentDataArray ++ [field],
          position, []⟩ := by
  cases field with
  | nil =>
    refine ⟨v.currentPosition + 1 + 1, ?_⟩
    rw [renderField_append, List.nil_append]
    simp only [scanUnits, scanCharacter_open d s t d hasHeaders _ _ hstate rfl,
      accumulate_startDelimiter,
      scanCharacter_open d s t d hasHeaders _ (some State.startDelimiter) (by decide) rfl,
      if_true]
  | cons u field =>
    have hu : u ≠ d := fun h => hd (by simp [h])
    have hus : u ≠ s := fun h => hs (by simp [h])
    have hut : u ≠ t := fun h => ht (by simp [h])
    have hrest : ¬ d ∈ field := fun h => hd (List.mem_cons_of_mem _ h)
    refine ⟨v.currentPosition + 1 + 1 + field.length + 1, ?_⟩
    rw [renderField_append, List.cons_append]
    simp only [scanUnits, scanCharacter_open d s t d hasHeaders _ _ hstate rfl,
      accumulate_startDelimiter, scanCharacter_first d s t u hasHeaders _ hu hus hut,
      accumulate_insideDelimiter]
    rw [scanUnits_content d s t hasHeaders field _ _ _ _ _ hrest]
    simp only [List.singleton_append, scanUnits, scanCharacter_close, accumulate_endDelimiter,
      List.nil_append, if_false, reduceCtorEq]


theorem renderRow_single (d s t : Nat) (field : Str) :
    renderRow d s t [field] = renderField d field ++ [t] := by
  simp [renderRow, List.intercalate]

theorem renderRow_cons_cons (d s t : Nat) (field next : Str) (fields : List Str) :
    renderRow d s t (field :: next :: fields) =
      renderField d field ++ s :: renderRow d s t (next :: fields) := by
  simp [renderRow, List.intercalate]

theorem renderRow_head (d s t : Nat) (row : List Str) (rest : Str) (hne : row ≠ []) :
    (renderRow d s t row ++ rest).head? = some d := by
  match row, hne with
  | [field], _ => rw [renderRow_single, List.append_assoc, renderField_append]; rfl
  | field :: next :: fields, _ =>
    rw [renderRow_cons_cons, List.append_assoc, renderField_append]; rfl

theorem renderDocument_cons (d s t : Nat) (row : List Str) (document : List (List Str)) :
    renderDocument d s t (row :: document) =
      renderRow d s t row ++ renderDocument d s t document := by
  simp [renderDocument]

theorem renderDocument_head (d s t : Nat) (document : List (List Str))
    (hrows : ∀ row ∈ document, row ≠ []) :
    (renderDocument d s t document).head? = none ∨
      (renderDocument d s t document).head? = some d := by
  cases document with
  | nil => exact Or.inl rfl
  | cons row document =>
    rw [renderDocument_cons]
    exact Or.inr (renderRow_head d s t row _ (hrows row (by simp)))

/-- A rendered row is scanned to the end of its terminator: the row is appended to the
document with its non-empty fields, in order. -/
theorem scanUnits_row (d s t : Nat) (hasHeaders : Bool) (hds : d ≠ s) (hdt : d ≠ t)
    (hst : s ≠ t) (row : List Str) (hne : row ≠ []) (rest : Str) (v : ScanVars)
    (hstate : v.currentState ≠ some State.insideDelimiter)
    (hfields : ∀ field ∈ row, ¬ d ∈ field ∧ field.head? ≠ some s ∧ field.head? ≠ some t)
    (hrest : rest.head? = none ∨ rest.head? = some d) :
    ∃ position, scanUnits (symbols d s t hasHeaders) (renderRow d s t row ++ rest) v =
      scanUnits (symbols d s t hasHeaders) rest
        ⟨some State.atTerminator,
          v.data ++ [v.currentDataArray ++ row.filter fun field => decide (field ≠ [])], [],
          position, []⟩ := by
  induction row generalizing v with
  | nil => exact absurd rfl hne
  | cons field fields ih =>
    obtain ⟨hfd, hfs, hft⟩ := hfields field (by simp)
    cases fields with
    | nil =>
      obtain ⟨p, hp⟩ := scanUnits_field d s t hasHeaders field ([t] ++ rest) v hstate hfd hfs hft
      refine ⟨p + 1, ?_⟩
      rw [renderRow_single, List.append_assoc, hp, List.singleton_append]
      by_cases hempty : field = []
      · simp only [hempty, if_true, scanUnits,
          scanCharacter_terminator d s t hasHeaders _ (some State.startDelimiter) (by decide)
            hdt hst hrest, accumulate_atTerminator]
        simp
      · simp only [hempty, if_false, scanUnits,
          scanCharacter_terminator d s t hasHeaders _ (some State.endDelimiter) (by decide)
            hdt hst hrest, accumulate_atTerminator]
        simp [hempty]
    | cons next fields =>
      obtain ⟨p, hp⟩ := scanUnits_field d s t hasHeaders field
        ([s] ++ (renderRow d s t (next :: fields) ++ rest)) v hstate hfd hfs hft
      have hla : (renderRow d s t (next :: fields) ++ rest).head? = some d ∨
          (renderRow d s t (next :: fields) ++ rest).head? = some t :=
        Or.inl (renderRow_head d s t _ _ (by simp))
      have htail : ∀ f ∈ next :: fields,
          ¬ d ∈ f ∧ f.head? ≠ some s ∧ f.head? ≠ some t :=
        fun f hf => hfields f (List.mem_cons_of_mem _ hf)
      rw [renderRow_cons_cons, List.append_assoc, List.cons_append, ← List.singleton_append, hp,
        List.singleton_append]
      by_cases hempty : field = []
      · simp only [hempty, if_true, scanUnits,
          scanCharacter_separator d s t hasHeaders _ (some State.startDelimiter) (by decide)
            hds hla, accumulate_atSeparator]
        obtain ⟨q, hq⟩ := ih (by simp)
          ⟨some State.atSeparator, v.data, v.currentDataArray, p + 1, []⟩ (by simp) htail
        refine ⟨q, ?_⟩
        rw [hq]
        simp
      · simp only [hempty, if_false, scanUnits,
          scanCharacter_separator d s t hasHeaders _ (some State.endDelimiter) (by decide)
            hds hla, accumulate_atSeparator]
        obtain ⟨q, hq⟩ := ih (by simp)
          ⟨some State.atSeparator, v.data, v.currentDataArray ++ [field], p + 1, []⟩ (by simp)
          htail
        refine ⟨q, ?_⟩
        rw [hq]
        simp [hempty]

/-- A rendered document is scanned to its end without error: its rows are appended to the
document scanned so far, each with its non-empty fields, and nothing is left in the
current row or the current word. -/
theorem scanUnits_document (d s t : Nat) (hasHeaders : Bool) (hds : d ≠ s) (hdt : d ≠ t)
    (hst : s ≠ t) (document : List (List Str)) (v : ScanVars)
    (hstate : v.currentState ≠ some State.insideDelimiter)
    (harray : v.currentDataArray = []) (hword : v.currentWord = [])
    (hrows : ∀ row ∈ document, row ≠ [])
    (hfields : ∀ row ∈ document, ∀ field ∈ row,
      ¬ d ∈ field ∧ field.head? ≠ some s ∧ field.head? ≠ some t) :
    ∃ v2, scanUnits (symbols d s t hasHeaders) (renderDocument d s t document) v =
        Except.ok v2 ∧
      v2.data = v.data ++ document.map (fun row => row.filter fun field => decide (field ≠ [])) ∧
      v2.currentDataArray = [] ∧ v2.currentWord = [] := by
  induction document generalizing v with
  | nil => exact ⟨v, rfl, by simp, harray, hword⟩
  | cons row document ih =>
    have hrows2 : ∀ r ∈ document, r ≠ [] := fun r hr => hrows r (List.mem_cons_of_mem _ hr)
    obtain ⟨p, hp⟩ := scanUnits_row d s t hasHeaders hds hdt hst row (hrows row (by simp))
      (renderDocument d s t document) v hstate (hfields row (by simp))
      (renderDocument_head d s t document hrows2)
    obtain ⟨v2, hv2, hdata, harr, hw⟩ := ih
      ⟨some State.atTerminator,
        v.data ++ [v.currentDataArray ++ row.filter fun field => decide (field ≠ [])], [], p, []⟩
      (by simp) rfl rfl hrows2 (fun r hr => hfields r (List.mem_cons_of_mem _ hr))
    refine ⟨v2, ?_, ?_, harr, hw⟩
    · rw [renderDocument_cons, hp, hv2]
    · rw [hdata, harray]
      simp


/-- When the file content holds no CR immediately followed by LF, `parseCSV` is the scan
of the content itself. -/
theorem parseCSV_eq_scan (fileContent : Str) (options : Config)
    (h : replaceCRLF fileContent = fileContent) :
    parseCSV fileContent options = scan fileContent options := by
  rw [parseCSV, h]

theorem finalize_empty (v : ScanVars) (harray : v.currentDataArray = [])
    (hword : v.currentWord = []) : finalize v = ParseResult.valid v.data := by
  simp [finalize, harray, hword, trim]

/-- The scan of a rendered document whose fields hold no delimiter and do not begin with
the separator or the terminator returns its rows with their non-empty fields. -/
theorem scan_renderDocument (d s t : Nat) (hasHeaders : Bool) (hds : d ≠ s) (hdt : d ≠ t)
    (hst : s ≠ t) (document : List (List Str)) (hrows : ∀ row ∈ document, row ≠ [])
    (hfields : ∀ row ∈ document, ∀ field ∈ row,
      ¬ d ∈ field ∧ field.head? ≠ some s ∧ field.head? ≠ some t)
    (hunits : SingleUnits (renderDocument d s t document)) :
    scan (renderDocument d s t document) (symbols d s t hasHeaders) =
      ParseResult.valid
        (document.map fun row => row.filter fun field => decide (field ≠ [])) := by
  obtain ⟨v2, hv2, hdata, harr, hw⟩ := scanUnits_document d s t hasHeaders hds hdt hst document
    initialVars (by simp [initialVars]) rfl rfl hrows hfields
  rw [scan_eq_scanUnits _ _ hunits, hv2]
  simp only
  rw [finalize_empty v2 harr hw, hdata]
  simp [initialVars]

theorem filter_nonempty_fields (document : List (List Str))
    (h : ∀ row ∈ document, ∀ field ∈ row, field ≠ []) :
    (document.map fun row => row.filter fun field => decide (field ≠ [])) = document := by
  have hrow : ∀ row ∈ document, (row.filter fun field => decide (field ≠ [])) = row := by
    intro row hr
    rw [List.filter_eq_self]
    intro field hf
    simpa using h row hr field hf
  calc (document.map fun row => row.filter fun field => decide (field ≠ []))
      = document.map id := List.map_congr_left hrow
    _ = document := List.map_id _

/-- The loop and finalization of `parseCSV` (lines 111-178) on a well-formed text: for
pairwise distinct delimiter, separator and terminator and every document whose rows have
at least one field and whose fields are non-empty, contain no delimiter and do not begin
with the separator or the terminator, the scan of the rendered text returns exactly that
document (the characters of the text being single code units). -/
theorem scan_roundtrip (d s t : Nat) (hasHeaders : Bool) (hds : d ≠ s) (hdt : d ≠ t)
    (hst : s ≠ t) (document : List (List Str)) (hrows : ∀ row ∈ document, row ≠ [])
    (hfields : ∀ row ∈ document, ∀ field ∈ row,
      field ≠ [] ∧ ¬ d ∈ field ∧ field.head? ≠ some s ∧ field.head? ≠ some t)
    (hunits : SingleUnits (renderDocument d s t document)) :
    scan (renderDocument d s t document) (symbols d s t hasHeaders) =
      ParseResult.valid document := by
  rw [scan_renderDocument d s t hasHeaders hds hdt hst document hrows
    (fun row hr field hf => (hfields row hr field hf).2) hunits,
    filter_nonempty_fields document (fun row hr field hf => (hfields row hr field hf).1)]

/-- Line 110 leaves a text without CR LF as it is. -/
theorem replaceCRLF_of_noCRLF (text : Str) (h : NoCRLF text) : replaceCRLF text = text := by
  unfold NoCRLF at h
  induction text using replaceCRLF.induct with
  | case1 => rfl
  | case2 u => rfl
  | case3 u v rest hpair _ =>
    exfalso
    apply h
    rw [hpair.1, hpair.2]
    exact ⟨[], rest, rfl⟩
  | case4 u v rest hpair ih =>
    rw [replaceCRLF, if_neg hpair, ih (fun hc => h (List.infix_cons hc))]

/-- C1 as stated fails: with delimiter `"`, separator `,` and terminator line feed, the
document with the single field a CR LF b meets every condition of the claim (one row
with one field, which is non-empty, holds no delimiter, begins with neither separator
nor terminator, and is made of single code units), yet `parseCSV` returns the field
a LF b for its text, line 110 having replaced CR LF by LF before the scan. -/
theorem parseCSV_roundtrip_counterexample :
    (∀ row ∈ [[[97, 13, 10, 98]]], row ≠ ([] : List Str)) ∧
    (∀ row ∈ [[[97, 13, 10, 98]]], ∀ field ∈ row,
      field ≠ ([] : Str) ∧ ¬ 34 ∈ field ∧ field.head? ≠ some 44 ∧ field.head? ≠ some 10) ∧
    SingleUnits (renderDocument 34 44 10 [[[97, 13, 10, 98]]]) ∧
    renderDocument 34 44 10 [[[97, 13, 10, 98]]] = [34, 97, 13, 10, 98, 34, 10] ∧
    parseCSV (renderDocument 34 44 10 [[[97, 13, 10, 98]]]) (symbols 34 44 10 true) =
      ParseResult.valid [[[97, 10, 98]]] ∧
    parseCSV (renderDocument 34 44 10 [[[97, 13, 10, 98]]]) (symbols 34 44 10 true) ≠
      ParseResult.valid [[[97, 13, 10, 98]]] := by
  decide

/-- C1, amended: round trip of `parseCSV` on well-formed text.  For pairwise distinct
delimiter, separator and terminator and every document whose rows have at least one field
and whose fields are non-empty, contain no delimiter and do not begin with the separator
or the terminator (characters being single code units), if the text made by wrapping each
field in the delimiter, joining the fields of a row with the separator and ending every
row with the terminator holds no CR immediately followed by LF, then `parseCSV` of that
text succeeds and returns exactly that document, rows and fields in the same order. -/
theorem parseCSV_roundtrip (d s t : Nat) (hasHeaders : Bool) (hds : d ≠ s) (hdt : d ≠ t)
    (hst : s ≠ t) (document : List (List Str)) (hrows : ∀ row ∈ document, row ≠ [])
    (hfields : ∀ row ∈ document, ∀ field ∈ row,
      field ≠ [] ∧ ¬ d ∈ field ∧ field.head? ≠ some s ∧ field.head? ≠ some t)
    (hunits : SingleUnits (renderDocument d s t document))
    (hcrlf : NoCRLF (renderDocument d s t document)) :
    parseCSV (renderDocument d s t document) (symbols d s t hasHeaders) =
      ParseResult.valid document := by
  rw [parseCSV, replaceCRLF_of_noCRLF _ hcrlf]
  exact scan_roundtrip d s t hasHeaders hds hdt hst document hrows hfields hunits

/-- Witness for C1, amended: with delimiter `"`, separator `,` and terminator line feed,
the text `"name","age","prof","gender"\n"Alice","30","Nurse","Female"\n` gives 2 rows, row
1 being [Alice, 30, Nurse, Female]. -/
theorem parseCSV_roundtrip_witness :
    renderDocument 34 44 10 [[lit "name", lit "age", lit "prof", lit "gender"],
        [lit "Alice", lit "30", lit "Nurse", lit "Female"]] =
      lit "\"name\",\"age\",\"prof\",\"gender\"\n\"Alice\",\"30\",\"Nurse\",\"Female\"\n" ∧
    parseCSV (renderDocument 34 44 10 [[lit "name", lit "age", lit "prof", lit "gender"],
        [lit "Alice", lit "30", lit "Nurse", lit "Female"]]) (symbols 34 44 10 true) =
      ParseResult.valid [[lit "name", lit "age", lit "prof", lit "gender"],
        [lit "Alice", lit "30", lit "Nurse", lit "Female"]] :=
  ⟨by decide,
    parseCSV_roundtrip 34 44 10 true (by decide) (by decide) (by decide) _ (by decide)
      (by decide) (by decide) (by decide)⟩


/-! ### Rows and terminators -/

theorem count_renderField (d t : Nat) (field : Str) (hdt : d ≠ t) (ht : ¬ t ∈ field) :
    (renderField d field).count t = 0 := by
  rw [List.count_eq_zero]
  intro hmem
  simp only [renderField, List.mem_cons, List.mem_append, List.mem_singleton,
    List.not_mem_nil, or_false] at hmem
  rcases hmem with (h | h) | h
  · exact hdt h.symm
  · exact ht h
  · exact hdt h.symm

theorem count_renderRow (d s t : Nat) (hdt : d ≠ t) (hst : s ≠ t) (row : List Str)
    (hne : row ≠ []) (hfields : ∀ field ∈ row, ¬ t ∈ field) :
    (renderRow d s t row).count t = 1 := by
  induction row with
  | nil => exact absurd rfl hne
  | cons field fields ih =>
    have hf := count_renderField d t field hdt (hfields field (by simp))
    cases fields with
    | nil =>
      rw [renderRow_single, List.count_append, hf]
      simp
    | cons next fields =>
      have htail := ih (by simp) (fun f hm => hfields f (List.mem_cons_of_mem _ hm))
      rw [renderRow_cons_cons, List.count_append, hf, List.count_cons, htail]
      simp [hst]

theorem count_renderDocument (d s t : Nat) (hdt : d ≠ t) (hst : s ≠ t)
    (document : List (List Str)) (hrows : ∀ row ∈ document, row ≠ [])
    (hfields : ∀ row ∈ document, ∀ field ∈ row, ¬ t ∈ field) :
    (renderDocument d s t document).count t = document.length := by
  induction document with
  | nil => rfl
  | cons row document ih =>
    rw [renderDocument_cons, List.count_append,
      count_renderRow d s t hdt hst row (hrows row (by simp)) (hfields row (by simp)),
      ih (fun r hr => hrows r (List.mem_cons_of_mem _ hr))
        (fun r hr => hfields r (List.mem_cons_of_mem _ hr))]
    simp only [List.length_cons]
    omega

/-- C8 as stated fails: with delimiter `"`, separator `,` and terminator line feed, the
well-formed text `"a\nb"\n` (one row, one field, whose content holds a line feed and no
delimiter) scans to one row, while the terminator occurs twice in the text.  If rows
without fields count as well-formed, the text of two such rows (two line feeds) is
rejected at position 0. -/
theorem scan_row_count_counterexample :
    renderDocument 34 44 10 [[lit "a\nb"]] = lit "\"a\nb\"\n" ∧
    scan (renderDocument 34 44 10 [[lit "a\nb"]]) (symbols 34 44 10 true) =
      ParseResult.valid [[lit "a\nb"]] ∧
    (renderDocument 34 44 10 [[lit "a\nb"]]).count 10 = 2 ∧
    [[lit "a\nb"]].length = 1 ∧
    scan (renderDocument 34 44 10 [[], []]) (symbols 34 44 10 true) =
      ParseResult.invalid (lit "Character at position 0 is invalid.") := by
  decide

/-- C8, amended: for pairwise distinct grammar symbols and every text made of rows of at
least one delimiter-wrapped field, joined by the separator and ended by the terminator,
whose field contents hold neither the delimiter nor the terminator and do not begin with
the separator (the characters of the text being single code units), the scan succeeds
and the number of rows returned equals the number of rows of the text, which is the
number of occurrences of the terminator in the text. -/
theorem scan_row_count (d s t : Nat) (hasHeaders : Bool) (hds : d ≠ s) (hdt : d ≠ t)
    (hst : s ≠ t) (document : List (List Str)) (hrows : ∀ row ∈ document, row ≠ [])
    (hfields : ∀ row ∈ document, ∀ field ∈ row,
      ¬ d ∈ field ∧ ¬ t ∈ field ∧ field.head? ≠ some s)
    (hunits : SingleUnits (renderDocument d s t document)) :
    ∃ data, scan (renderDocument d s t document) (symbols d s t hasHeaders) =
        ParseResult.valid data ∧
      data.length = document.length ∧
      data.length = (renderDocument d s t document).count t := by
  have hhead : ∀ row ∈ document, ∀ field ∈ row,
      ¬ d ∈ field ∧ field.head? ≠ some s ∧ field.head? ≠ some t := by
    intro row hr field hf
    obtain ⟨h1, h2, h3⟩ := hfields row hr field hf
    exact ⟨h1, h3, fun hc => h2 (List.mem_of_mem_head? hc)⟩
  refine ⟨_, scan_renderDocument d s t hasHeaders hds hdt hst document hrows hhead hunits,
    by simp, ?_⟩
  rw [count_renderDocument d s t hdt hst document hrows
    (fun row hr field hf => (hfields row hr field hf).2.1)]
  simp

/-- Witness for C8, amended: the two-row text
`"name","age"\n"Al","","30"\n` (its second row has an empty field) scans to 2 rows and
holds 2 terminators. -/
theorem scan_row_count_witness :
    ∃ data, scan (renderDocument 34 44 10 [[lit "name", lit "age"], [lit "Al", [], lit "30"]])
        (symbols 34 44 10 true) = ParseResult.valid data ∧
      data.length = [[lit "name", lit "age"], [lit "Al", [], lit "30"]].length ∧
      data.length =
        (renderDocument 34 44 10 [[lit "name", lit "age"], [lit "Al", [], lit "30"]]).count 10 :=
  scan_row_count 34 44 10 true (by decide) (by decide) (by decide) _ (by decide) (by decide)
    (by decide)


/-! ### The state after an opening delimiter

`scanCharacter` counts the state `startDelimiter` as being inside a field for ordinary
characters only (line 133).  The guard of line 113 and the test of line 118 ask for
`insideDelimiter`, so right after an opening delimiter a separator or terminator is a
structural symbol and a delimiter opens a field again. -/

/-- C5 at three texts, with delimiter `"`, separator `,` and terminator line feed.  In
`""x"\n` the character `x` at offset 2 follows two delimiters and is none of the three
symbols, yet the scan succeeds with the single row [x].  In `",x"y` the first character
outside a delimiter pair that breaks the grammar is `y` at offset 4, yet the error is
reported at position 1.  In `"A",,"B","C"\n` the error is reported at offset 3. -/
theorem scan_structural_offset_cases :
    scan (lit "\"\"x\"\n") (symbols 34 44 10 true) = ParseResult.valid [[lit "x"]] ∧
    scan (lit "\",x\"y") (symbols 34 44 10 true) =
      ParseResult.invalid (lit "Character at position 1 is invalid.") ∧
    scan (lit "\"A\",,\"B\",\"C\"\n") (symbols 34 44 10 true) =
      ParseResult.invalid (lit "Character at position 3 is invalid.") := by
  decide

/-- C6 at two texts, with delimiter `"`, separator `,` and terminator line feed: the
contents `,a` and a line feed followed by `b` hold no delimiter, yet scanning them
wrapped in delimiters and followed by the terminator fails at position 1, on the
separator or terminator that begins the content. -/
theorem scan_leading_symbol_cases :
    renderRow 34 44 10 [lit ",a"] = lit "\",a\"\n" ∧
    scan (lit "\",a\"\n") (symbols 34 44 10 true) =
      ParseResult.invalid (lit "Character at position 1 is invalid.") ∧
    renderRow 34 44 10 [lit "\nb"] = lit "\"\nb\"\n" ∧
    scan (lit "\"\nb\"\n") (symbols 34 44 10 true) =
      ParseResult.invalid (lit "Character at position 1 is invalid.") := by
  decide

/-- C7 at the text `"a","","b"\n`, with delimiter `"`, separator `,` and terminator line
feed: the row [a, empty string, b] is rendered to that text, and scanning it returns the
row [a, b]; the empty field is lost. -/
theorem scan_empty_field_case :
    renderRow 34 44 10 [lit "a", [], lit "b"] = lit "\"a\",\"\",\"b\"\n" ∧
    scan (lit "\"a\",\"\",\"b\"\n") (symbols 34 44 10 true) =
      ParseResult.valid [[lit "a", lit "b"]] := by
  decide

/-! ### Row 0 of the document -/

theorem validateData_cons (row0 : List Str) (rest : List (List Str)) :
    validateData (row0 :: rest) = validateRows 1 rest := by
  simp [validateData]

/-- C11: `validateData` never inspects row 0.  For every document, replacing row 0 by any
other row, of any length and content, leaves the result unchanged, and every document with
at most one row validates successfully. -/
theorem validateData_skips_row0 (data : List (List Str)) (other : List Str) :
    validateData (data.set 0 other) = validateData data ∧
    (data.length ≤ 1 → validateData data = ValidationResult.valid) := by
  cases data with
  | nil => exact ⟨rfl, fun _ => rfl⟩
  | cons row0 rest =>
    refine ⟨by rw [List.set_cons_zero, validateData_cons, validateData_cons], fun h => ?_⟩
    have hrest : rest = [] := by
      cases rest with
      | nil => rfl
      | cons r rs => simp at h
    rw [validateData_cons, hrest]
    rfl

/-- Witness for C11: a document made of the single row [x, y] validates successfully,
although that row has 2 fields. -/
theorem validateData_skips_row0_witness :
    validateData [[lit "x", lit "y"]] = ValidationResult.valid :=
  (validateData_skips_row0 [[lit "x", lit "y"]] []).2 (by decide)

/-! ### Configuration loading and the driver -/

/-- C12 as stated fails: with delimiter and separator both `"` and terminator line feed,
configuration loading succeeds and the text `"a"\n` is scanned and validated
successfully. -/
theorem main_coinciding_symbols_counterexample :
    getConfigurationOptions (lit "config.json")
        (Except.ok ⟨some [34], some true, some [34], some [10]⟩) =
      ConfigResult.success ⟨[34], true, [34], [10]⟩ ∧
    parseCSV (lit "\"a\"\n") ⟨[34], true, [34], [10]⟩ = ParseResult.valid [[lit "a"]] ∧
    main (some (lit "data.csv")) (some (lit "config.json"))
        (Except.ok ⟨some [34], some true, some [34], some [10]⟩) (lit "\"a\"\n") =
      Outcome.dataIsValid := by
  decide

/-- C12, amended: coinciding grammar symbols are not rejected.  For every configuration
whose four fields are present and truthy, whether two of its symbols coincide or not,
configuration loading succeeds with that configuration, and the program ends
successfully exactly when the scan returns a document and the validation accepts it; on
the empty text it ends successfully. -/
theorem main_any_symbols (filePath configPath delimiter separator terminator fileContent : Str)
    (hfile : filePath ≠ []) (hconfig : configPath ≠ []) (hd : delimiter ≠ [])
    (hs : separator ≠ []) (ht : terminator ≠ []) :
    getConfigurationOptions configPath
        (Except.ok ⟨some delimiter, some true, some separator, some terminator⟩) =
      ConfigResult.success ⟨delimiter, true, separator, terminator⟩ ∧
    (main (some filePath) (some configPath)
        (Except.ok ⟨some delimiter, some true, some separator, some terminator⟩) fileContent =
        Outcome.dataIsValid ↔
      ∃ data, parseCSV fileContent ⟨delimiter, true, separator, terminator⟩ =
          ParseResult.valid data ∧
        validateData data = ValidationResult.valid) ∧
    main (some filePath) (some configPath)
        (Except.ok ⟨some delimiter, some true, some separator, some terminator⟩) [] =
      Outcome.dataIsValid := by
  have hload : getConfigurationOptions configPath
      (Except.ok ⟨some delimiter, some true, some separator, some terminator⟩) =
      ConfigResult.success ⟨delimiter, true, separator, terminator⟩ := by
    simp [getConfigurationOptions, truthyStr, truthyBool, hd, hs, ht]
  have hargs : ¬ (truthyArgument (some filePath) = false ∨
      truthyArgument (some configPath) = false) := by
    simp [truthyArgument, hfile, hconfig]
  have hmain : ∀ content, main (some filePath) (some configPath)
      (Except.ok ⟨some delimiter, some true, some separator, some terminator⟩) content =
      match parseCSV content ⟨delimiter, true, separator, terminator⟩ with
      | ParseResult.invalid _ => Outcome.exitOne none
      | ParseResult.valid data =>
        match validateData data with
        | ValidationResult.invalid error => Outcome.exitOne (some error)
        | ValidationResult.valid => Outcome.dataIsValid := by
    intro content
    rw [main, if_neg hargs]
    simp only [Option.getD_some, hload]
  refine ⟨hload, ?_, ?_⟩
  · rw [hmain]
    cases hparse : parseCSV fileContent ⟨delimiter, true, separator, terminator⟩ with
    | invalid e => simp
    | valid data =>
      cases hval : validateData data with
      | valid => simp [hval]
      | invalid e => simp [hval]
  · rw [hmain]
    rfl

/-- Witness for C12, amended: with delimiter and separator both `"`, loading succeeds and
the program ends successfully on the empty text. -/
theorem main_any_symbols_witness :
    main (some (lit "data.csv")) (some (lit "config.json"))
        (Except.ok ⟨some [34], some true, some [34], some [10]⟩) [] =
      Outcome.dataIsValid :=
  (main_any_symbols (lit "data.csv") (lit "config.json") [34] [34] [10] [] (by decide)
    (by decide) (by decide) (by decide) (by decide)).2.2

/-- C14 at the configuration with delimiter `"`, separator `,`, terminator line feed and
the text `"name","age","prof","gender"\n"Alice","30","Nurse","Female"\n`: with
`hasHeaders` true the program ends successfully; with `hasHeaders` false, all four fields
being present, loading fails with the message that the file has no `hasHeaders`
parameter and the program exits with code 1. -/
theorem main_hasHeaders_cases :
    main (some (lit "data.csv")) (some (lit "config.json"))
        (Except.ok ⟨some [34], some true, some [44], some [10]⟩)
        (lit "\"name\",\"age\",\"prof\",\"gender\"\n\"Alice\",\"30\",\"Nurse\",\"Female\"\n") =
      Outcome.dataIsValid ∧
    getConfigurationOptions (lit "config.json")
        (Except.ok ⟨some [34], some false, some [44], some [10]⟩) =
      ConfigResult.failure
        (lit "Configuration file " ++ [39] ++ lit "config.json" ++ [39] ++ lit " has no " ++
          [39] ++ lit "hasHeaders" ++ [39] ++ lit " parameter.") ∧
    main (some (lit "data.csv")) (some (lit "config.json"))
        (Except.ok ⟨some [34], some false, some [44], some [10]⟩)
        (lit "\"name\",\"age\",\"prof\",\"gender\"\n\"Alice\",\"30\",\"Nurse\",\"Female\"\n") =
      Outcome.exitOne
        (some (lit "Configuration file " ++ [39] ++ lit "config.json" ++ [39] ++
          lit " has no " ++ [39] ++ lit "hasHeaders" ++ [39] ++ lit " parameter.")) := by
  decide

/-! ### The lookahead -/

/-- C13 at the text made of the character U+1F600 (code units D83D DE00) followed by
`a`.  The loop hands to the transition function the lookaheads DE00 (the second half of
the current character) and `a` (the current character itself), where the characters
that follow are `a` and none.  With delimiter `"`, separator `,` and terminator line
feed, the text `"`, U+1F600, `"`, line feed is rejected at position 3, the final line
feed being handed itself as lookahead. -/
theorem lookAhead_astral_cases :
    lookAheads [0xD83D, 0xDE00, 97] =
      [([0xD83D, 0xDE00], some 0xDE00), ([97], some 97)] ∧
    nextCharacters [0xD83D, 0xDE00, 97] = [([0xD83D, 0xDE00], some [97]), ([97], none)] ∧
    scan [34, 0xD83D, 0xDE00, 34, 10] (symbols 34 44 10 true) =
      ParseResult.invalid (lit "Character at position 3 is invalid.") := by
  decide

/-- On a text of single-unit characters the lookahead handed to the transition function
is the character that follows, and is absent exactly at the last character. -/
theorem lookAheads_of_singleUnits (text : Str) (hunits : SingleUnits text) :
    (lookAheads text).map (fun entry => (entry.1, unitStr entry.2)) = nextCharacters text := by
  unfold SingleUnits at hunits
  rw [lookAheads, nextCharacters, List.map_map]
  refine List.map_congr_left (fun entry hentry => ?_)
  have hlt := List.fst_lt_of_mem_enum hentry
  rw [hunits, List.length_map] at hlt
  simp only [Function.comp_apply, lookAheadAt, if_pos hlt, unitStr, hunits, List.getElem?_map]

/-! ### Halting at the first error -/

theorem accumulate_eq_error_iff (v : ScanVars) (character : Str) (state : State) (e : Str) :
    accumulate v character state = Except.error e ↔
      state = State.error ∧ e = positionError v.currentPosition := by
  cases state
  · simp [accumulate_startDelimiter]
  · simp [accumulate_insideDelimiter]
  · simp [accumulate_endDelimiter]
  · simp [accumulate_atSeparator]
  · simp [accumulate_atTerminator]
  · rw [accumulate_error]
    constructor
    · intro h
      cases h
      exact ⟨rfl, rfl⟩
    · rintro ⟨_, rfl⟩
      rfl

theorem scanLoop_append (csvData : Str) (options : Config) (front rest : List Str)
    (v : ScanVars) :
    scanLoop csvData options (front ++ rest) v =
      match scanLoop csvData options front v with
      | Except.error e => Except.error e
      | Except.ok v2 => scanLoop csvData options rest v2 := by
  induction front generalizing v with
  | nil => rfl
  | cons character front ih =>
    rw [List.cons_append]
    simp only [scanLoop]
    cases loopBody csvData options v character with
    | error e => rfl
    | ok v2 => exact ih v2

theorem scanLoop_position (csvData : Str) (options : Config) (characters : List Str)
    (v v2 : ScanVars) (h : scanLoop csvData options characters v = Except.ok v2) :
    v2.currentPosition = v.currentPosition + characters.length := by
  induction characters generalizing v with
  | nil =>
    simp only [scanLoop] at h
    cases h
    rfl
  | cons character rest ih =>
    simp only [scanLoop] at h
    cases hbody : loopBody csvData options v character with
    | error e => rw [hbody] at h; cases h
    | ok v1 =>
      rw [hbody] at h
      have h1 := accumulate_position v v1 _ _ hbody
      rw [ih v1 h, h1, List.length_cons]
      omega

/-- An error of the loop comes from one step: the characters before it are consumed
without error and the transition function yields `error` on it. -/
theorem scanLoop_error_split (csvData : Str) (options : Config) (characters : List Str)
    (v : ScanVars) (e : Str) (h : scanLoop csvData options characters v = Except.error e) :
    ∃ front character rest v2, characters = front ++ character :: rest ∧
      scanLoop csvData options front v = Except.ok v2 ∧
      scanCharacter character (lookAheadAt csvData v2.currentPosition) options
        v2.currentState = State.error ∧
      e = positionError v2.currentPosition := by
  induction characters generalizing v with
  | nil => simp [scanLoop] at h
  | cons character rest ih =>
    simp only [scanLoop] at h
    cases hbody : loopBody csvData options v character with
    | error e1 =>
      rw [hbody] at h
      cases h
      obtain ⟨hstate, he⟩ := (accumulate_eq_error_iff v character _ e).mp hbody
      exact ⟨[], character, rest, v, rfl, rfl, hstate, he⟩
    | ok v1 =>
      rw [hbody] at h
      obtain ⟨front, c, rest2, v2, hsplit, hfront, hstate, he⟩ := ih v1 h
      refine ⟨character :: front, c, rest2, v2, by rw [hsplit]; rfl, ?_, hstate, he⟩
      simp only [scanLoop, hbody]
      exact hfront

/-- The loop reads the text only through the lookaheads at the positions it visits. -/
theorem scanLoop_congr (csvData other : Str) (options : Config) (characters : List Str)
    (v : ScanVars)
    (h : ∀ i, v.currentPosition ≤ i → i < v.currentPosition + characters.length →
      lookAheadAt other i = lookAheadAt csvData i) :
    scanLoop other options characters v = scanLoop csvData options characters v := by
  induction characters generalizing v with
  | nil => rfl
  | cons character rest ih =>
    have hbody : loopBody other options v character = loopBody csvData options v character := by
      simp only [loopBody]
      rw [h v.currentPosition (Nat.le_refl _) (by simp)]
    simp only [scanLoop, hbody]
    cases hb : loopBody csvData options v character with
    | error e => rfl
    | ok v1 =>
      have h1 := accumulate_position v v1 _ _ hb
      refine ih v1 (fun i hlo hhi => h i (by omega) ?_)
      rw [List.length_cons]
      omega

theorem finalize_valid (v : ScanVars) : ∃ data, finalize v = ParseResult.valid data := by
  unfold finalize
  split_ifs
  · exact ⟨_, rfl⟩
  · exact ⟨_, rfl⟩

theorem scan_of_error_step (csvData : Str) (options : Config) (front : List Str)
    (character : Str) (rest : List Str) (v : ScanVars)
    (hsplit : forOf csvData = front ++ character :: rest)
    (hfront : scanLoop csvData options front initialVars = Except.ok v)
    (herror : scanCharacter character (lookAheadAt csvData front.length) options
      v.currentState = State.error) :
    scan csvData options = ParseResult.invalid (positionError front.length) := by
  have hpos : v.currentPosition = front.length := by
    rw [scanLoop_position csvData options front initialVars v hfront]
    simp [initialVars]
  rw [scan, hsplit, scanLoop_append, hfront]
  simp only [scanLoop, loopBody, hpos, herror, accumulate_error]

/-- C15: the scan halts at the first error and returns no partial result.  For every text
and configuration the scan returns the structural error, a result without rows, if and
only if the transition function yields `error` at some step, the steps before it having
been taken without error; the position in the error is the number of characters consumed
before that step; and every text that has the same characters up to that step and the
same lookaheads up to that step gives the same error, whatever follows. -/
theorem scan_halts_at_first_error (csvData : Str) (options : Config) (e : Str) :
    (scan csvData options = ParseResult.invalid e ↔
      ∃ front character rest v, forOf csvData = front ++ character :: rest ∧
        scanLoop csvData options front initialVars = Except.ok v ∧
        scanCharacter character (lookAheadAt csvData front.length) options v.currentState =
          State.error ∧
        e = positionError front.length) ∧
    (∀ front character rest v, forOf csvData = front ++ character :: rest →
      scanLoop csvData options front initialVars = Except.ok v →
      scanCharacter character (lookAheadAt csvData front.length) options v.currentState =
        State.error →
      ∀ other rest2, forOf other = front ++ character :: rest2 →
        (∀ i, i ≤ front.length → lookAheadAt other i = lookAheadAt csvData i) →
        scan other options = ParseResult.invalid (positionError front.length)) := by
  constructor
  · constructor
    · intro h
      cases hloop : scanLoop csvData options (forOf csvData) initialVars with
      | ok v =>
        rw [scan, hloop] at h
        obtain ⟨data, hdata⟩ := finalize_valid v
        simp only [hdata] at h
        cases h
      | error e1 =>
        rw [scan, hloop] at h
        simp only [ParseResult.invalid.injEq] at h
        subst h
        obtain ⟨front, c, rest, v, hsplit, hfront, hstate, he⟩ :=
          scanLoop_error_split csvData options _ initialVars e1 hloop
        have hpos : v.currentPosition = front.length := by
          rw [scanLoop_position csvData options front initialVars v hfront]
          simp [initialVars]
        rw [hpos] at hstate he
        exact ⟨front, c, rest, v, hsplit, hfront, hstate, he⟩
    · rintro ⟨front, c, rest, v, hsplit, hfront, hstate, rfl⟩
      exact scan_of_error_step csvData options front c rest v hsplit hfront hstate
  · intro front c rest v _ hfront hstate other rest2 hsplit2 hsame
    have hfront2 : scanLoop other options front initialVars = Except.ok v := by
      rw [scanLoop_congr csvData other options front initialVars
        (fun i _ hhi => hsame i (by simp [initialVars] at hhi; omega))]
      exact hfront
    refine scan_of_error_step other options front c rest2 v hsplit2 hfront2 ?_
    rw [hsame front.length (Nat.le_refl _)]
    exact hstate

/-- Witness for C15: with delimiter `"`, separator `,` and terminator line feed, in
`"A",,"B","C"` followed by a line feed the first three characters are consumed without
error and the transition function yields `error` on the comma at offset 3; the result is
the error for position 3. -/
theorem scan_halts_at_first_error_witness :
    scan (lit "\"A\",,\"B\",\"C\"\n") (symbols 34 44 10 true) =
      ParseResult.invalid (positionError 3) ∧
    positionError 3 = lit "Character at position 3 is invalid." :=
  ⟨(scan_halts_at_first_error (lit "\"A\",,\"B\",\"C\"\n") (symbols 34 44 10 true)
      (positionError 3)).1.mpr
      ⟨[[34], [65], [34]], [44], [[44], [34], [66], [34], [44], [34], [67], [34], [10]],
        ⟨some State.endDelimiter, [], [[65]], 3, []⟩, by decide, rfl, by decide, rfl⟩,
    by decide⟩

/-! ### The age length check -/

theorem decimalValue_cons (u : Nat) (rest : Str) :
    decimalValue (u :: rest) = (u - 48) * 10 ^ rest.length + decimalValue rest := by
  have h := foldl_parseInt (u :: rest) 0
  rw [List.foldl_cons, foldl_parseInt rest] at h
  simp only [Nat.mul_zero, Nat.zero_add, Nat.zero_mul] at h
  exact h.symm

/-- A string of more than 3 ASCII digits whose value is at most 125 begins with 0. -/
theorem leading_zero_of_long_age (age : Str) (hdigits : ∀ u ∈ age, 48 ≤ u ∧ u ≤ 57)
    (hlen : 3 < age.length) (hvalue : decimalValue age ≤ 125) : age.head? = some 48 := by
  cases age with
  | nil => simp at hlen
  | cons u rest =>
    rw [decimalValue_cons] at hvalue
    have hu := hdigits u (by simp)
    have hrest : 3 ≤ rest.length := by
      simp only [List.length_cons] at hlen
      omega
    have hpow : 10 ^ 3 ≤ 10 ^ rest.length := Nat.pow_le_pow_right (by decide) hrest
    by_cases h48 : u = 48
    · simp [h48]
    · have h1 : 1 ≤ u - 48 := by omega
      have h2 : 1 * 10 ^ rest.length ≤ (u - 48) * 10 ^ rest.length :=
        Nat.mul_le_mul_right _ h1
      have h3 : (10 : Nat) ^ 3 = 1000 := by decide
      omega

theorem toDigitsCore_shape (fuel n : Nat) (digits : List Char) :
    ∃ front, Nat.toDigitsCore 10 fuel n digits = front ++ digits ∧
      (fuel ≠ 0 → ∃ front2, front = front2 ++ [Nat.digitChar (n % 10)]) := by
  induction fuel generalizing n digits with
  | zero => exact ⟨[], rfl, fun h => absurd rfl h⟩
  | succ fuel ih =>
    simp only [Nat.toDigitsCore]
    split_ifs with h0
    · exact ⟨[Nat.digitChar (n % 10)], rfl, fun _ => ⟨[], rfl⟩⟩
    · obtain ⟨front, hfront, _⟩ := ih (n / 10) (Nat.digitChar (n % 10) :: digits)
      refine ⟨front ++ [Nat.digitChar (n % 10)], ?_, fun _ => ⟨front, rfl⟩⟩
      rw [hfront]
      simp

theorem digitChar_toNat (k : Nat) (hk : k < 10) :
    48 ≤ (Nat.digitChar k).toNat ∧ (Nat.digitChar k).toNat ≤ 57 := by
  interval_cases k <;> decide

/-- The decimal text of a number ends with an ASCII digit. -/
theorem decimal_last (n : Nat) :
    ∃ front digit, decimal n = front ++ [digit] ∧ 48 ≤ digit ∧ digit ≤ 57 := by
  obtain ⟨front, hfront, hlast⟩ := toDigitsCore_shape (n + 1) n []
  obtain ⟨front2, hfront2⟩ := hlast (by omega)
  have hdigit := digitChar_toNat (n % 10) (Nat.mod_lt _ (by decide))
  refine ⟨front2.map Char.toNat, (Nat.digitChar (n % 10)).toNat, ?_, hdigit.1, hdigit.2⟩
  rw [decimal, Nat.toDigits, hfront, hfront2]
  simp

/-- A message that ends with a text of which the three-digit reason is no ending, and
which is no ending of it, does not end with the three-digit reason. -/
theorem not_suffix_append (reason front ending : Str) (h1 : ¬ reason <:+ ending)
    (h2 : ¬ ending <:+ reason) : ¬ reason <:+ front ++ ending := by
  intro h
  rcases List.suffix_or_suffix_of_suffix h (List.suffix_append front ending) with h3 | h3
  · exact h1 h3
  · exact h2 h3

theorem three_digits_reverse :
    (lit "Age must not exceed three digits.").reverse =
      46 :: 115 :: (lit "Age must not exceed three digit").reverse := by
  decide

theorem columnCountError_not_three_digits (rowIndex found : Nat) (direction : Str) :
    ¬ lit "Age must not exceed three digits." <:+ columnCountError rowIndex direction found := by
  obtain ⟨front, digit, hdec, hlo, hhi⟩ := decimal_last found
  have hshape : columnCountError rowIndex direction found =
      (lit "Row " ++ decimal (rowIndex + 1) ++ lit " has " ++ direction ++
        lit " columns than expected. Expected " ++ decimal schema.length ++
        lit " columns but found " ++ front) ++ [digit, 46] := by
    rw [columnCountError, hdec]
    simp only [List.append_assoc]
    rfl
  rw [hshape]
  refine not_suffix_append _ _ _ (fun h => ?_) (fun h => ?_)
  · have := h.length_le
    simp [lit] at this
  · obtain ⟨t, ht⟩ := h
    have hrev := congrArg List.reverse ht
    rw [List.reverse_append, three_digits_reverse] at hrev
    simp only [List.reverse_cons, List.reverse_nil, List.nil_append, List.cons_append,
      List.cons.injEq] at hrev
    omega

/-- A cell check returns the three-digit reason only for the integer column, on a cell
that begins with 0. -/
theorem validateCell_not_three_digits (rowIndex colIndex : Nat) (column : SchemaColumn)
    (cell error : Str)
    (hzero : column.type = ColumnType.integer → cell.head? ≠ some 48)
    (h : validateCell rowIndex colIndex column (some cell) = some error) :
    ¬ lit "Age must not exceed three digits." <:+ error := by
  obtain ⟨type, fieldName⟩ := column
  cases type with
  | varchar =>
    simp only [validateCell] at h
    split_ifs at h with h1 h2 h3
    · rw [← Option.some.inj h]
      exact not_suffix_append _ _ _ (by decide) (by decide)
    · rw [← Option.some.inj h]
      exact not_suffix_append _ _ _ (by decide) (by decide)
    · rw [← Option.some.inj h]
      exact not_suffix_append _ _ _ (by decide) (by decide)
  | integer =>
    simp only [validateCell] at h
    split_ifs at h with h1 h2 h3
    · rw [← Option.some.inj h]
      exact not_suffix_append _ _ _ (by decide) (by decide)
    · rw [← Option.some.inj h]
      exact not_suffix_append _ _ _ (by decide) (by decide)
    · exfalso
      have hm : matchesDigits cell = true := by simpa using h1
      have hd := ((matchesDigits_iff cell).mp hm).2
      rw [parseInt_eq_decimalValue] at h2
      exact hzero rfl (leading_zero_of_long_age cell hd h3 (by omega))

theorem validateRow_not_three_digits (rowIndex : Nat) (row : List Str) (error : Str)
    (hzero : ∀ age, row[1]? = some age → age.head? ≠ some 48)
    (h : validateRow rowIndex row = some error) :
    ¬ lit "Age must not exceed three digits." <:+ error := by
  by_cases hlen : row.length = 4
  · obtain ⟨a, b, c, d, rfl⟩ := eq_four_of_length hlen
    rw [validateRow_four] at h
    cases h0 : validateCell rowIndex 0 ⟨ColumnType.varchar, lit "name"⟩ (some a) with
    | some e0 =>
      rw [h0] at h
      rw [← Option.some.inj h]
      exact validateCell_not_three_digits _ _ _ _ _ (fun hc => by cases hc) h0
    | none =>
      rw [h0] at h
      cases h1 : validateCell rowIndex 1 ⟨ColumnType.integer, lit "age"⟩ (some b) with
      | some e1 =>
        rw [h1] at h
        rw [← Option.some.inj h]
        exact validateCell_not_three_digits _ _ _ _ _ (fun _ => hzero b rfl) h1
      | none =>
        rw [h1] at h
        cases h2 : validateCell rowIndex 2 ⟨ColumnType.varchar, lit "profession"⟩ (some c) with
        | some e2 =>
          rw [h2] at h
          rw [← Option.some.inj h]
          exact validateCell_not_three_digits _ _ _ _ _ (fun hc => by cases hc) h2
        | none =>
          rw [h2] at h
          cases h3 : validateCell rowIndex 3 ⟨ColumnType.varchar, lit "gender"⟩ (some d) with
          | some e3 =>
            rw [h3] at h
            rw [← Option.some.inj h]
            exact validateCell_not_three_digits _ _ _ _ _ (fun hc => by cases hc) h3
          | none =>
            rw [h3] at h
            cases h
  · rw [validateRow_length_ne rowIndex row hlen] at h
    rw [← Option.some.inj h]
    exact columnCountError_not_three_digits _ _ _

theorem validateRows_invalid_exists (rows : List (List Str)) (rowIndex : Nat) (error : Str)
    (h : validateRows rowIndex rows = ValidationResult.invalid error) :
    ∃ k row, rows[k]? = some row ∧ validateRow (rowIndex + k) row = some error := by
  induction rows generalizing rowIndex with
  | nil => simp [validateRows] at h
  | cons first rest ih =>
    simp only [validateRows] at h
    cases hfirst : validateRow rowIndex first with
    | some e =>
      rw [hfirst] at h
      simp only [ValidationResult.invalid.injEq] at h
      subst h
      exact ⟨0, first, by simp, hfirst⟩
    | none =>
      rw [hfirst] at h
      obtain ⟨k, row, hk, hrow⟩ := ih (rowIndex + 1) h
      refine ⟨k + 1, row, by simpa using hk, ?_⟩
      rw [← hrow]
      congr 1
      omega

/-- C16 as stated fails: the age text 0018 is made of ASCII digits, has 4 characters and
the value 18, and after a header row the data row [Bob, 0018, Clerk, Male] gives the
diagnostic "Row 2, Column 2 (age): Age must not exceed three digits.". -/
theorem age_length_check_counterexample :
    (∀ u ∈ lit "0018", 48 ≤ u ∧ u ≤ 57) ∧ (lit "0018").length = 4 ∧
    decimalValue (lit "0018") = 18 ∧
    validateData [[lit "name", lit "age", lit "prof", lit "gender"],
        [lit "Bob", lit "0018", lit "Clerk", lit "Male"]] =
      ValidationResult.invalid
        (lit "Row 2, Column 2 (age): Age must not exceed three digits.") := by
  decide

/-- C16, amended: the length check on age is redundant with the range check for age
texts without a leading zero only.  No age text made of ASCII digits that does not begin
with 0 has more than 3 characters and yet a value inside [18, 125]; hence `validateData`
never returns a diagnostic ending in "Age must not exceed three digits." for a document
in which no age cell of a row of index at least 1 begins with 0. -/
theorem age_length_check_leading_zero :
    (∀ age : Str, (∀ u ∈ age, 48 ≤ u ∧ u ≤ 57) → age.head? ≠ some 48 →
      ¬ (3 < age.length ∧ 18 ≤ decimalValue age ∧ decimalValue age ≤ 125)) ∧
    (∀ (data : List (List Str)) (error : Str),
      (∀ i row age, 1 ≤ i → data[i]? = some row → row[1]? = some age →
        age.head? ≠ some 48) →
      validateData data = ValidationResult.invalid error →
      ¬ lit "Age must not exceed three digits." <:+ error) := by
  constructor
  · rintro age hdigits hzero ⟨hlen, _, hvalue⟩
    exact hzero (leading_zero_of_long_age age hdigits hlen hvalue)
  · intro data error hzero h
    obtain ⟨k, row, hk, hrow⟩ := validateRows_invalid_exists (data.drop 1) 1 error h
    rw [List.getElem?_drop] at hk
    exact validateRow_not_three_digits (1 + k) row error
      (fun age hage => hzero (1 + k) row age (by omega) hk hage) hrow

/-- Witness for C16, amended: after a header row, the data row [Dee, 2000, Pilot, Female],
whose age has 4 digits and no leading zero, gives the range diagnostic, which does not
end in "Age must not exceed three digits.". -/
theorem age_length_check_leading_zero_witness :
    ¬ lit "Age must not exceed three digits." <:+
      lit "Row 2, Column 2 (age): Age must be between 0 and 125." :=
  age_length_check_leading_zero.2
    [[lit "name", lit "age", lit "prof", lit "gender"],
      [lit "Dee", lit "2000", lit "Pilot", lit "Female"]]
    (lit "Row 2, Column 2 (age): Age must be between 0 and 125.")
    (fun i row age hi hrow hage => by
      match i, hi, hrow with
      | 1, _, hrow =>
        simp at hrow
        subst hrow
        simp at hage
        subst hage
        decide
      | _ + 2, _, hrow => simp at hrow)
    (by decide)

/-! ### The end of input -/

theorem finalize_of_buffer (v : ScanVars)
    (h : v.currentDataArray.length > 0 ∨ trim v.currentWord ≠ []) :
    finalize v = ParseResult.valid (v.data ++ [v.currentDataArray]) := by
  rw [finalize, if_pos h, List.dropLast_concat]

/-- C17: finalization drops an unclosed trailing field.  For every text that scans without
error and ends while a field is still open with a non-blank buffer, the result is a
success: the rows completed during the scan, followed by a last row that holds exactly
the fields of the trailing row closed before the end of input (possibly none); the
buffered text of the unclosed field is not put into the document, which is the same
whatever non-blank text the buffer holds. -/
theorem scan_unclosed_field (csvData : Str) (options : Config) (v : ScanVars)
    (hloop : scanLoop csvData options (forOf csvData) initialVars = Except.ok v)
    (_hopen : v.currentState = some State.insideDelimiter)
    (hbuffer : trim v.currentWord ≠ []) :
    scan csvData options = ParseResult.valid (v.data ++ [v.currentDataArray]) ∧
    (∀ word : Str, trim word ≠ [] →
      finalize ⟨v.currentState, v.data, v.currentDataArray, v.currentPosition, word⟩ =
        ParseResult.valid (v.data ++ [v.currentDataArray])) := by
  refine ⟨?_, fun word hword => finalize_of_buffer _ (Or.inr hword)⟩
  rw [scan, hloop]
  exact finalize_of_buffer v (Or.inr hbuffer)

/-- Witness for C17: with delimiter `"`, separator `,` and terminator line feed, the text
`"a","b` ends inside the second field with the buffer `b`; the result is the single row
[a].  The text `"b` gives a single empty row. -/
theorem scan_unclosed_field_witness :
    scan (lit "\"a\",\"b") (symbols 34 44 10 true) = ParseResult.valid ([] ++ [[lit "a"]]) ∧
    scan (lit "\"b") (symbols 34 44 10 true) = ParseResult.valid ([] ++ [[]]) :=
  ⟨(scan_unclosed_field (lit "\"a\",\"b") (symbols 34 44 10 true)
      ⟨some State.insideDelimiter, [], [lit "a"], 6, lit "b"⟩ rfl rfl (by decide)).1,
    (scan_unclosed_field (lit "\"b") (symbols 34 44 10 true)
      ⟨some State.insideDelimiter, [], [], 2, lit "b"⟩ rfl rfl (by decide)).1⟩

theorem singleUnits_cons_cons (u w : Nat) (rest : Str) :
    SingleUnits (u :: w :: rest) ↔
      (isHighSurrogate u && isLowSurrogate w) = false ∧ SingleUnits (w :: rest) := by
  unfold SingleUnits
  rw [forOf]
  by_cases hpair : (isHighSurrogate u && isLowSurrogate w) = true
  · simp [hpair]
  · simp [hpair]

theorem singleUnits_of_append (front rest : Str) (h : SingleUnits (front ++ rest)) :
    SingleUnits front := by
  induction front with
  | nil => rfl
  | cons u front ih =>
    cases front with
    | nil => rfl
    | cons w front =>
      rw [List.cons_append, List.cons_append, singleUnits_cons_cons] at h
      rw [singleUnits_cons_cons]
      exact ⟨h.1, ih h.2⟩

theorem scanCharacter_eq_endDelimiter_iff (char : Str) (lookAhead : Option Nat)
    (config : Config) (currentState : Option State) :
    scanCharacter char lookAhead config currentState = State.endDelimiter ↔
      currentState = some State.insideDelimiter ∧ char = config.delimiter := by
  unfold scanCharacter
  split_ifs <;> simp_all

theorem accumulate_state (v v2 : ScanVars) (character : Str) (state : State)
    (h : accumulate v character state = Except.ok v2) : v2.currentState = some state := by
  cases state
  · rw [accumulate_startDelimiter] at h
    cases h
    rfl
  · rw [accumulate_insideDelimiter] at h
    cases h
    rfl
  · rw [accumulate_endDelimiter] at h
    cases h
    rfl
  · rw [accumulate_atSeparator] at h
    cases h
    rfl
  · rw [accumulate_atTerminator] at h
    cases h
    rfl
  · rw [accumulate_error] at h
    cases h

/-- When the loop ends in state `endDelimiter`, appending characters to the text does not
change what the loop does on the text itself. -/
theorem scanUnits_append_of_endDelimiter (options : Config) (text extra : Str)
    (v0 v : ScanVars) (hloop : scanUnits options text v0 = Except.ok v)
    (hend : v.currentState = some State.endDelimiter) :
    scanUnits options (text ++ extra) v0 = scanUnits options extra v := by
  induction text generalizing v0 with
  | nil =>
    simp only [scanUnits] at hloop
    cases hloop
    rfl
  | cons u rest ih =>
    rw [List.cons_append]
    simp only [scanUnits] at hloop ⊢
    cases rest with
    | nil =>
      cases hacc : accumulate v0 [u] (scanCharacter [u] ([] : Str).head? options
          v0.currentState) with
      | error e => rw [hacc] at hloop; cases hloop
      | ok v1 =>
        rw [hacc] at hloop
        simp only [scanUnits] at hloop
        cases hloop
        have hstate := accumulate_state v0 v _ _ hacc
        rw [hend] at hstate
        have hsc := (Option.some.inj hstate).symm
        have hany := (scanCharacter_eq_endDelimiter_iff [u] ([] ++ extra).head? options
          v0.currentState).mpr ((scanCharacter_eq_endDelimiter_iff _ _ _ _).mp hsc)
        rw [hsc] at hacc
        rw [hany, hacc]
        rfl
    | cons w rest =>
      have hhead : ((w :: rest) ++ extra).head? = (w :: rest).head? := rfl
      rw [hhead]
      cases hacc : accumulate v0 [u] (scanCharacter [u] (w :: rest).head? options
          v0.currentState) with
      | error e => rw [hacc] at hloop; cases hloop
      | ok v1 =>
        rw [hacc] at hloop
        exact ih v1 hloop

/-- When the loop ends in a state `endDelimiter` that it was not started in, the buffer
is empty and the current row holds at least the field just closed. -/
theorem scanUnits_endDelimiter_shape (options : Config) (text : Str) (v0 v : ScanVars)
    (hloop : scanUnits options text v0 = Except.ok v)
    (hend : v.currentState = some State.endDelimiter) :
    v = v0 ∨ (v.currentWord = [] ∧ v.currentDataArray ≠ []) := by
  induction text generalizing v0 with
  | nil =>
    simp only [scanUnits] at hloop
    cases hloop
    exact Or.inl rfl
  | cons u rest ih =>
    simp only [scanUnits] at hloop
    cases hacc : accumulate v0 [u] (scanCharacter [u] rest.head? options v0.currentState) with
    | error e => rw [hacc] at hloop; cases hloop
    | ok v1 =>
      rw [hacc] at hloop
      rcases ih v1 hloop with h | h
      · subst h
        have hstate := accumulate_state v0 v _ _ hacc
        rw [hend] at hstate
        rw [← Option.some.inj hstate, accumulate_endDelimiter] at hacc
        cases hacc
        exact Or.inr ⟨rfl, by simp⟩
      · exact Or.inr h

theorem scanUnits_of_scanLoop (options : Config) (text : Str) (v : ScanVars)
    (hunits : SingleUnits text)
    (hloop : scanLoop text options (forOf text) initialVars = Except.ok v) :
    scanUnits options text initialVars = Except.ok v := by
  unfold SingleUnits at hunits
  have h := scanLoop_eq_scanUnits options text [] initialVars rfl
  simp only [List.nil_append] at h
  rw [← h, ← hunits]
  exact hloop

/-- C18: a missing final terminator loses no closed field.  For a terminator different
from the delimiter and the separator and every text of single-unit characters whose last
character leaves the scan in state `endDelimiter`, scanning the text gives the same
result as scanning the text with one terminator appended: the rows completed during the
scan followed by the trailing row with all of its closed fields, which are at least one,
the last one included. -/
theorem scan_missing_terminator (d s t : Nat) (hasHeaders : Bool) (hdt : d ≠ t) (hst : s ≠ t)
    (text : Str) (v : ScanVars) (hunits : SingleUnits (text ++ [t]))
    (hloop : scanLoop text (symbols d s t hasHeaders) (forOf text) initialVars = Except.ok v)
    (hend : v.currentState = some State.endDelimiter) :
    scan (text ++ [t]) (symbols d s t hasHeaders) = scan text (symbols d s t hasHeaders) ∧
    scan text (symbols d s t hasHeaders) =
      ParseResult.valid (v.data ++ [v.currentDataArray]) ∧
    v.currentDataArray ≠ [] := by
  have hunits1 : SingleUnits text := singleUnits_of_append text [t] hunits
  have hU := scanUnits_of_scanLoop (symbols d s t hasHeaders) text v hunits1 hloop
  have hshape : v.currentWord = [] ∧ v.currentDataArray ≠ [] := by
    rcases scanUnits_endDelimiter_shape _ text initialVars v hU hend with h | h
    · rw [h] at hend
      simp [initialVars] at hend
    · exact h
  have hlen : v.currentDataArray.length > 0 := List.length_pos.mpr hshape.2
  have hplain : scan text (symbols d s t hasHeaders) =
      ParseResult.valid (v.data ++ [v.currentDataArray]) := by
    rw [scan, hloop]
    exact finalize_of_buffer v (Or.inl hlen)
  refine ⟨?_, hplain, hshape.2⟩
  rw [hplain, scan_eq_scanUnits _ _ hunits,
    scanUnits_append_of_endDelimiter _ text [t] initialVars v hU hend]
  simp only [scanUnits, List.head?_nil,
    scanCharacter_terminator d s t hasHeaders none v.currentState (by rw [hend]; decide) hdt hst
      (Or.inl rfl),
    accumulate_atTerminator]
  exact finalize_empty ⟨some State.atTerminator, v.data ++ [v.currentDataArray], [],
    v.currentPosition + 1, v.currentWord⟩ rfl hshape.1

/-- Witness for C18: with delimiter `"`, separator `,` and terminator line feed, the text
`"a","b"` without a final line feed scans to the single row [a, b], as the text with the
line feed does. -/
theorem scan_missing_terminator_witness :
    scan (lit "\"a\",\"b\"" ++ [10]) (symbols 34 44 10 true) =
      scan (lit "\"a\",\"b\"") (symbols 34 44 10 true) ∧
    scan (lit "\"a\",\"b\"") (symbols 34 44 10 true) =
      ParseResult.valid ([] ++ [[lit "a", lit "b"]]) ∧
    [lit "a", lit "b"] ≠ [] :=
  scan_missing_terminator 34 44 10 true (by decide) (by decide) (lit "\"a\",\"b\"")
    ⟨some State.endDelimiter, [], [lit "a", lit "b"], 7, []⟩ (by decide) rfl rfl

/-! ### The fields of a scanned document -/

theorem scanCharacter_eq_insideDelimiter (char : Str) (lookAhead : Option Nat)
    (config : Config) (currentState : Option State)
    (h : scanCharacter char lookAhead config currentState = State.insideDelimiter) :
    char ≠ config.delimiter ∧
      (currentState = some State.startDelimiter ∨
        currentState = some State.insideDelimiter) := by
  unfold scanCharacter at h
  split_ifs at h <;> simp_all

theorem forOf_ne_nil (text : Str) : ∀ c ∈ forOf text, c ≠ [] := by
  induction text using forOf.induct with
  | case1 => simp [forOf]
  | case2 u => simp [forOf]
  | case3 u w rest hpair ih =>
    intro c hc
    rw [forOf, if_pos hpair] at hc
    rcases List.mem_cons.mp hc with h | h
    · rw [h]
      simp
    · exact ih c h
  | case4 u w rest hpair ih =>
    intro c hc
    rw [forOf, if_neg hpair] at hc
    rcases List.mem_cons.mp hc with h | h
    · rw [h]
      simp
    · exact ih c h

theorem fieldOf_ne_nil (csvData : Str) (config : Config) (field : Str)
    (h : FieldOf csvData config field) : field ≠ [] := by
  obtain ⟨characters, hne, hfield, hall⟩ := h
  cases characters with
  | nil => exact absurd rfl hne
  | cons c rest =>
    have hc := forOf_ne_nil csvData c (hall c (by simp)).1
    rw [hfield, List.flatten_cons]
    intro hnil
    exact hc (List.append_eq_nil.mp hnil).1

theorem fieldOf_append (csvData : Str) (config : Config) (field character : Str)
    (h : FieldOf csvData config field) (hmem : character ∈ forOf csvData)
    (hne : character ≠ config.delimiter) :
    FieldOf csvData config (field ++ character) := by
  obtain ⟨characters, _, hfield, hall⟩ := h
  refine ⟨characters ++ [character], by simp, by simp [hfield], fun c hc => ?_⟩
  rcases List.mem_append.mp hc with h1 | h1
  · exact hall c h1
  · rw [List.mem_singleton.mp h1]
    exact ⟨hmem, hne⟩

theorem fieldOf_single (csvData : Str) (config : Config) (character : Str)
    (hmem : character ∈ forOf csvData) (hne : character ≠ config.delimiter) :
    FieldOf csvData config ([] ++ character) :=
  ⟨[character], by simp, by simp, fun c hc => by
    rw [List.mem_singleton.mp hc]
    exact ⟨hmem, hne⟩⟩

/-- One iteration of the loop keeps the invariant. -/
theorem loopBody_invariant (csvData : Str) (config : Config) (v v2 : ScanVars)
    (character : Str) (hmem : character ∈ forOf csvData)
    (hinv : ScanInvariant csvData config v)
    (h : loopBody csvData config v character = Except.ok v2) :
    ScanInvariant csvData config v2 := by
  obtain ⟨hdata, hrow, hstart, hinside⟩ := hinv
  simp only [loopBody] at h
  cases hstate : scanCharacter character (lookAheadAt csvData v.currentPosition) config
      v.currentState with
  | startDelimiter =>
    rw [hstate, accumulate_startDelimiter] at h
    cases h
    exact ⟨hdata, hrow, fun _ => rfl, fun hc => by simp at hc⟩
  | insideDelimiter =>
    obtain ⟨hne, hprev⟩ := scanCharacter_eq_insideDelimiter _ _ _ _ hstate
    rw [hstate, accumulate_insideDelimiter] at h
    cases h
    refine ⟨hdata, hrow, fun hc => by simp at hc, fun _ => ?_⟩
    rcases hprev with hp | hp
    · simp only [hstart hp]
      exact fieldOf_single csvData config character hmem hne
    · exact fieldOf_append csvData config _ character (hinside hp) hmem hne
  | endDelimiter =>
    have hprev := ((scanCharacter_eq_endDelimiter_iff _ _ _ _).mp hstate).1
    rw [hstate, accumulate_endDelimiter] at h
    cases h
    refine ⟨hdata, fun field hf => ?_, fun hc => by simp at hc, fun hc => by simp at hc⟩
    rcases List.mem_append.mp hf with h1 | h1
    · exact hrow field h1
    · rw [List.mem_singleton.mp h1]
      exact hinside hprev
  | atSeparator =>
    rw [hstate, accumulate_atSeparator] at h
    cases h
    exact ⟨hdata, hrow, fun hc => by simp at hc, fun hc => by simp at hc⟩
  | atTerminator =>
    rw [hstate, accumulate_atTerminator] at h
    cases h
    refine ⟨fun row hr => ?_, fun field hf => by simp at hf, fun hc => by simp at hc,
      fun hc => by simp at hc⟩
    rcases List.mem_append.mp hr with h1 | h1
    · exact hdata row h1
    · rw [List.mem_singleton.mp h1]
      exact hrow
  | error =>
    rw [hstate, accumulate_error] at h
    cases h

theorem scanLoop_invariant (csvData : Str) (config : Config) (characters : List Str)
    (v v2 : ScanVars) (hmem : ∀ c ∈ characters, c ∈ forOf csvData)
    (hinv : ScanInvariant csvData config v)
    (h : scanLoop csvData config characters v = Except.ok v2) :
    ScanInvariant csvData config v2 := by
  induction characters generalizing v with
  | nil =>
    simp only [scanLoop] at h
    cases h
    exact hinv
  | cons character rest ih =>
    simp only [scanLoop] at h
    cases hbody : loopBody csvData config v character with
    | error e => rw [hbody] at h; cases h
    | ok v1 =>
      rw [hbody] at h
      exact ih v1 (fun c hc => hmem c (List.mem_cons_of_mem _ hc))
        (loopBody_invariant csvData config v v1 character (hmem character (by simp)) hinv hbody)
        h

theorem scan_fieldOf (csvData : Str) (config : Config) (data : List (List Str))
    (h : scan csvData config = ParseResult.valid data) :
    ∀ row ∈ data, ∀ field ∈ row, FieldOf csvData config field := by
  cases hloop : scanLoop csvData config (forOf csvData) initialVars with
  | error e =>
    rw [scan, hloop] at h
    cases h
  | ok v =>
    have hinit : ScanInvariant csvData config initialVars :=
      ⟨fun row hr => by simp [initialVars] at hr, fun f hf => by simp [initialVars] at hf,
        fun _ => rfl, fun hc => by simp [initialVars] at hc⟩
    obtain ⟨hdata, hrow, _, _⟩ :=
      scanLoop_invariant csvData config _ initialVars v (fun c hc => hc) hinit hloop
    rw [scan, hloop] at h
    simp only [finalize] at h
    split_ifs at h
    · cases h
      intro row hr
      rcases List.mem_append.mp hr with h1 | h1
      · exact hdata row h1
      · rw [List.mem_singleton.mp h1, List.dropLast_concat]
        exact hrow
    · cases h
      exact hdata

theorem fieldOf_no_delimiter_unit (csvData : Str) (config : Config) (field : Str) (d : Nat)
    (h : FieldOf csvData config field) (hd : config.delimiter = [d])
    (hunits : SingleUnits csvData) : ¬ d ∈ field := by
  obtain ⟨characters, _, hfield, hall⟩ := h
  unfold SingleUnits at hunits
  rw [hfield]
  intro hmem
  obtain ⟨c, hc, hdc⟩ := List.mem_flatten.mp hmem
  obtain ⟨hforOf, hne⟩ := hall c hc
  rw [hunits] at hforOf
  obtain ⟨u, _, hu⟩ := List.mem_map.mp hforOf
  rw [← hu] at hdc hne
  rw [List.mem_singleton] at hdc
  rw [hd, hdc] at hne
  exact hne rfl

/-- C19: the invariant of the accumulation.  For every text and configuration on which
the scan succeeds (also after the line-ending normalization of `parseCSV`), every field
of every row of the returned document is a non-empty string made of characters of the
scanned text none of which is the delimiter; when the characters of the text are
single code units and the delimiter is the code unit `d`, the field does not contain
`d`. -/
theorem scan_fields_invariant (text : Str) (config : Config) (data : List (List Str)) :
    (scan text config = ParseResult.valid data →
      ∀ row ∈ data, ∀ field ∈ row,
        field ≠ [] ∧
        (∃ characters : List Str, field = characters.flatten ∧
          ∀ c ∈ characters, c ∈ forOf text ∧ c ≠ config.delimiter) ∧
        (∀ d, config.delimiter = [d] → SingleUnits text → ¬ d ∈ field)) ∧
    (parseCSV text config = ParseResult.valid data →
      ∀ row ∈ data, ∀ field ∈ row,
        field ≠ [] ∧
        (∃ characters : List Str, field = characters.flatten ∧
          ∀ c ∈ characters, c ∈ forOf (replaceCRLF text) ∧ c ≠ config.delimiter) ∧
        (∀ d, config.delimiter = [d] → SingleUnits (replaceCRLF text) → ¬ d ∈ field)) := by
  have hmain : ∀ csvData : Str, scan csvData config = ParseResult.valid data →
      ∀ row ∈ data, ∀ field ∈ row,
        field ≠ [] ∧
        (∃ characters : List Str, field = characters.flatten ∧
          ∀ c ∈ characters, c ∈ forOf csvData ∧ c ≠ config.delimiter) ∧
        (∀ d, config.delimiter = [d] → SingleUnits csvData → ¬ d ∈ field) := by
    intro csvData h row hr field hf
    have hfield := scan_fieldOf csvData config data h row hr field hf
    refine ⟨fieldOf_ne_nil csvData config field hfield, ?_,
      fun d hd hunits => fieldOf_no_delimiter_unit csvData config field d hfield hd hunits⟩
    obtain ⟨characters, _, hflat, hall⟩ := hfield
    exact ⟨characters, hflat, hall⟩
  exact ⟨hmain text, hmain (replaceCRLF text)⟩

/-- Witness for C19: with delimiter `"`, separator `,` and terminator line feed, the text
`"a","","b"` followed by a line feed scans to the row [a, b]; its field `a` is not empty
and does not contain the delimiter. -/
theorem scan_fields_invariant_witness :
    lit "a" ≠ [] ∧ ¬ 34 ∈ lit "a" :=
  have h := (scan_fields_invariant (lit "\"a\",\"\",\"b\"\n") (symbols 34 44 10 true)
    [[lit "a", lit "b"]]).1 (by decide) [lit "a", lit "b"] (by simp) (lit "a") (by simp)
  ⟨h.1, h.2.2 34 rfl (by decide)⟩

/-! ### Fields without a separator between them -/

/-- On texts of single-unit characters, two wrapped fields that follow each other
directly, then the terminator, scan to the same row as the two fields joined by the
separator. -/
theorem scan_adjacent_fields (d s t : Nat) (hasHeaders : Bool) (hds : d ≠ s) (hdt : d ≠ t)
    (hst : s ≠ t) (a b : Str) (ha : a ≠ []) (hb : b ≠ [])
    (hasym : ¬ d ∈ a ∧ ¬ s ∈ a ∧ ¬ t ∈ a) (hbsym : ¬ d ∈ b ∧ ¬ s ∈ b ∧ ¬ t ∈ b)
    (hunits : SingleUnits (renderField d a ++ (renderField d b ++ [t])))
    (hunits2 : SingleUnits (renderDocument d s t [[a, b]])) :
    scan (renderField d a ++ (renderField d b ++ [t])) (symbols d s t hasHeaders) =
      ParseResult.valid [[a, b]] ∧
    scan (renderDocument d s t [[a, b]]) (symbols d s t hasHeaders) =
      ParseResult.valid [[a, b]] := by
  have hha : a.head? ≠ some s ∧ a.head? ≠ some t :=
    ⟨fun h => hasym.2.1 (List.mem_of_mem_head? h), fun h => hasym.2.2 (List.mem_of_mem_head? h)⟩
  have hhb : b.head? ≠ some s ∧ b.head? ≠ some t :=
    ⟨fun h => hbsym.2.1 (List.mem_of_mem_head? h), fun h => hbsym.2.2 (List.mem_of_mem_head? h)⟩
  constructor
  · obtain ⟨p, hp⟩ := scanUnits_field d s t hasHeaders a (renderField d b ++ [t]) initialVars
      (by simp [initialVars]) hasym.1 hha.1 hha.2
    obtain ⟨q, hq⟩ := scanUnits_field d s t hasHeaders b [t]
      ⟨some State.endDelimiter, [], [a], p, []⟩ (by simp) hbsym.1 hhb.1 hhb.2
    rw [scan_eq_scanUnits _ _ hunits, hp]
    simp only [ha, if_false, initialVars, List.nil_append]
    rw [hq]
    simp only [hb, if_false, scanUnits, List.head?_nil,
      scanCharacter_terminator d s t hasHeaders none (some State.endDelimiter) (by decide)
        hdt hst (Or.inl rfl),
      accumulate_atTerminator]
    rw [finalize_empty _ rfl rfl]
    simp
  · have hfields : ∀ row ∈ [[a, b]], ∀ field ∈ row,
        field ≠ [] ∧ ¬ d ∈ field ∧ field.head? ≠ some s ∧ field.head? ≠ some t := by
      intro row hrow field hfield
      rw [List.mem_singleton.mp hrow] at hfield
      rcases List.mem_cons.mp hfield with h | h
      · rw [h]
        exact ⟨ha, hasym.1, hha.1, hha.2⟩
      · rw [List.mem_singleton.mp h]
        exact ⟨hb, hbsym.1, hhb.1, hhb.2⟩
    rw [scan_renderDocument d s t hasHeaders hds hdt hst [[a, b]] (by simp)
      (fun row hr field hf => (hfields row hr field hf).2) hunits2,
      filter_nonempty_fields [[a, b]] (fun row hr field hf => (hfields row hr field hf).1)]

/-- C20 at the strings a = U+1F600 (code units D83D DE00) and b = `b`, with delimiter
`"`, separator `,` and terminator line feed.  Both strings are non-empty and free of
grammar symbols; the text without a separator between the two fields is rejected at
position 6 and the text with the separator is rejected at position 3.  With a = `a`
both texts scan to the single row [a, b]. -/
theorem scan_adjacent_fields_cases :
    renderField 34 [0xD83D, 0xDE00] ++ (renderField 34 (lit "b") ++ [10]) =
      [34, 0xD83D, 0xDE00, 34, 34, 98, 34, 10] ∧
    scan [34, 0xD83D, 0xDE00, 34, 34, 98, 34, 10] (symbols 34 44 10 true) =
      ParseResult.invalid (lit "Character at position 6 is invalid.") ∧
    renderDocument 34 44 10 [[[0xD83D, 0xDE00], lit "b"]] =
      [34, 0xD83D, 0xDE00, 34, 44, 34, 98, 34, 10] ∧
    scan [34, 0xD83D, 0xDE00, 34, 44, 34, 98, 34, 10] (symbols 34 44 10 true) =
      ParseResult.invalid (lit "Character at position 3 is invalid.") ∧
    scan (lit "\"a\"\"b\"\n") (symbols 34 44 10 true) = ParseResult.valid [[lit "a", lit "b"]] ∧
    scan (lit "\"a\",\"b\"\n") (symbols 34 44 10 true) =
      ParseResult.valid [[lit "a", lit "b"]] := by
  decide

end CsvCheck
